import Mathlib

/-!
Verification of the AudioTranscription batch pipeline (`src/main.py`).

The development shallowly embeds the program: the file Discoverer
(`get_audio_file_paths`) and the Transcription Pipeline
(`extract_json_from_audio`) are translated into pure Lean functions over an
explicit environment that fixes the outcome of every external call
(MIME sniffing, upload, remote readiness, chat response).  The pipeline
produces an event trace (network calls, log lines, file writes) and an error
outcome; the final state of the output directory is computed from the trace.

Python's `json.dumps(v, indent=4)` (with its default `ensure_ascii=True`) and
`json.loads` are embedded as an executable serializer and parser over a JSON
value type.  JSON numbers are modelled as integers: float literals (and the
non-standard `NaN`/`Infinity` constants Python accepts) are outside the
model, as is a string carrying a lone surrogate, which a Lean `Char` cannot
represent.  Python `dict`s cannot carry duplicate keys, so objects are
modelled as the ordered key/value sequences the serializer receives.
-/

/-- A Python exception value.  `isExc` records whether its class derives from
`Exception` (`True` for `AttributeError`, `json.JSONDecodeError`, network
errors, ...) or only from `BaseException` (`False` for `KeyboardInterrupt`,
`SystemExit`), which is what `except Exception` discriminates on. -/
structure PyErr where
  ename : String
  isExc : Bool
deriving DecidableEq, Repr

/-- The `AttributeError` raised by `None.startswith(...)` when
`mimetypes.guess_type(path)[0]` is `None`.  `AttributeError` derives from
`Exception`. -/
def attributeErrorNone : PyErr := ⟨"AttributeError", true⟩

/-- The `json.JSONDecodeError` raised by `json.loads` on malformed text; it
derives from `ValueError`, hence from `Exception`. -/
def jsonDecodeError : PyErr := ⟨"JSONDecodeError", true⟩

/-- Modelled from the spec: the error `wait_for_files_active` (defined in
`Functions/utils.py`, which is not among the sources) raises when a remote
asset reaches the failed readiness state; per spec §7 it is caught by the
per-file handler, so its class derives from `Exception`. -/
def processingFailedError : PyErr := ⟨"ProcessingFailedError", true⟩

/-- Modelled from the spec: the terminal readiness state of an uploaded
asset.  The transient pending/processing states are not represented; the
model records the state the spec's polling loop eventually observes.  An
asset that never reaches a terminal state would make the (timeout-free) wait
block forever, which has no counterpart in this terminating model. -/
inductive AssetState where
  | ready : AssetState
  | failed : AssetState
deriving DecidableEq, Repr

/-- An opaque handle returned by the remote storage API, carrying the
terminal readiness state its polling eventually reports. -/
structure AssetHandle where
  hname : String
  state : AssetState
deriving DecidableEq, Repr

/-- The shape of `upload_to_gemini`'s result: per the spec the upload call
may return a single asset handle or a sequence of handles; `main.py` probes
this with `isinstance(uploaded_parts, list)`. -/
inductive UploadResult where
  | single (h : AssetHandle) : UploadResult
  | listed (hs : List AssetHandle) : UploadResult
deriving DecidableEq, Repr

/-- Lines 59-60 of `main.py`: `if not isinstance(uploaded_parts, list):
uploaded_parts = [uploaded_parts]`. -/
def normalizeUploaded : UploadResult → List AssetHandle
  | UploadResult.single h => [h]
  | UploadResult.listed hs => hs

/-- Modelled from the spec: `wait_for_files_active` (in `Functions/utils.py`,
absent from the sources) polls every handle until all report the ready state,
raising a processing error if any reports the failed state. -/
def wait_for_files_active (parts : List AssetHandle) : Except PyErr Unit :=
  if parts.all (fun h => h.state == AssetState.ready) then Except.ok ()
  else Except.error processingFailedError

/-- The environment fixing the outcome of every external interaction, per
input path: `guess_type p` is `mimetypes.guess_type(p)[0]`;
`upload_to_gemini p` the result of uploading `p` (modelled from the spec,
the function itself lives in `Functions/utils.py`); `send_message p` the
`response.text` of the chat request issued for `p`; `makedirs_error` the
error `os.makedirs(output_directory, exist_ok=True)` raises, if any. -/
structure Env where
  guess_type : String → Option String
  upload_to_gemini : String → Except PyErr UploadResult
  send_message : String → Except PyErr String
  makedirs_error : Option PyErr

/-- Observable side effects of a run, in order of occurrence.  `openTrunc`
is `open(path, "w")`, which creates the file, truncating any previous
content; `writeOut` is the serialized text `json.dump` then writes. -/
inductive Event where
  | makeDirs (dir : String) : Event
  | logInfo (msg : String) : Event
  | logWarning (msg : String) : Event
  | logError (path : String) (e : PyErr) : Event
  | uploadCall (path : String) (mime : String) : Event
  | waitCall (parts : List AssetHandle) : Event
  | chatCall (parts : List AssetHandle) (prompt : String) : Event
  | openTrunc (path : String) : Event
  | writeOut (path : String) (content : String) : Event
deriving DecidableEq, Repr

/-- The output directory's contents: an association of file path to file
content, in creation order. -/
def FS : Type := List (String × String)

/-- Create or overwrite the file at `p` with content `c`. -/
def fsWrite : FS → String → String → FS
  | [], p, c => [(p, c)]
  | (q, d) :: t, p, c => if q = p then (p, c) :: t else (q, d) :: fsWrite t p c

/-- The content of the file at `p`, if it exists. -/
def fsLookup : FS → String → Option String
  | [], _ => none
  | (q, d) :: t, p => if q = p then some d else fsLookup t p

/-- Effect of one event on the filesystem: `openTrunc` leaves an empty file,
`writeOut` the written text; other events do not touch the filesystem. -/
def applyEvent (fs : FS) : Event → FS
  | Event.openTrunc p => fsWrite fs p ""
  | Event.writeOut p c => fsWrite fs p c
  | _ => fs

/-- The filesystem after a trace of events, starting from `fs`. -/
def finalFS (fs : FS) (evs : List Event) : FS := evs.foldl applyEvent fs

/-- Python's `str.startswith(pre)`: is `pre` a prefix of `s`?  Defined over
the character lists so that the kernel can evaluate it. -/
def str_startswith (s pre : String) : Bool := pre.data.isPrefixOf s.data

/-- Python's `str.endswith(suf)`: is `suf` a suffix of `s`? -/
def str_endswith (s suf : String) : Bool := suf.data.reverse.isPrefixOf s.data.reverse

/-- Python `os.path.join(a, b)` for POSIX paths (the `main.py` uses: a relative
directory joined with a file name). -/
def os_path_join (a b : String) : String :=
  if str_startswith b ("/") then b
  else if a = "" then b
  else if str_endswith a ("/") then a ++ b
  else a ++ "/" ++ b

/-- Python `os.path.basename(p)` for POSIX paths: everything after the last `/`. -/
def os_path_basename (p : String) : String :=
  String.mk ((p.data.reverse.takeWhile (fun c => c ≠ '/')).reverse)

/-- Split a `/`-free file name at its last dot, returning the part before it
together with the part from the dot on; `none` when there is no dot. -/
def lastDotSplit (name : List Char) : Option (List Char × List Char) :=
  match (name.reverse.span (fun c => c ≠ '.') : List Char × List Char) with
  | (_, []) => none
  | (revExt, _ :: revStem) => some (revStem.reverse, '.' :: revExt.reverse)

/-- Python `os.path.splitext(name)[0]` for a name without separators: the name is
split at its last dot, except that leading dots never start an extension
(`posixpath._splitext`); so `"foo.bar" ↦ "foo"` and `".bashrc" ↦ ".bashrc"`. -/
def os_path_splitext_stem (name : String) : String :=
  match lastDotSplit name.data with
  | none => name
  | some (stem, _) => if stem.all (fun c => c = '.') then name else String.mk stem

/-- Line 67 of `main.py`: the derived output path
`os.path.join(output_directory, os.path.splitext(os.path.basename(file_path))[0] + ".json")`. -/
def derivedJsonPath (output_directory file_path : String) : String :=
  os_path_join output_directory (os_path_splitext_stem (os_path_basename file_path) ++ ".json")

/-- One entry of `os.listdir(directory)`: its name, and whether
`os.path.isfile(os.path.join(directory, name))` holds. -/
structure DirEntry where
  ename : String
  isFile : Bool
deriving DecidableEq, Repr

/-- The loop of `get_audio_file_paths` (lines 14-17 of `main.py`) over the
remaining directory entries.  Per line 16, `os.path.isfile` is checked
first; only then is `mimetypes.guess_type(filepath)[0].startswith('audio/')`
evaluated, which raises `AttributeError` when the guessed type is `None`. -/
def scanEntries (guess_type : String → Option String) (directory : String) :
    List DirEntry → Except PyErr (List String)
  | [] => Except.ok []
  | ent :: rest =>
    let filepath := os_path_join directory ent.ename
    if ent.isFile then
      match guess_type filepath with
      | none => Except.error attributeErrorNone
      | some t =>
        if str_startswith t ("audio/") then (scanEntries guess_type directory rest).map (fun l => filepath :: l)
        else scanEntries guess_type directory rest
    else scanEntries guess_type directory rest

/-- The function `get_audio_file_paths(directory)` (lines 11-18 of `main.py`), over the
listing `os.listdir` returns, in listing order. -/
def get_audio_file_paths (guess_type : String → Option String) (directory : String)
    (listing : List DirEntry) : Except PyErr (List String) :=
  scanEntries guess_type directory listing

/-- Reference classification following the spec's words (§8): the entries
that are regular files and whose guessed content type starts with the audio
prefix, in listing order, mapped to their joined paths. -/
def specAudioFiles (guess_type : String → Option String) (directory : String)
    (listing : List DirEntry) : List String :=
  (listing.filter (fun ent =>
      ent.isFile && str_startswith ((guess_type (os_path_join directory ent.ename)).getD ("")) ("audio/"))).map
    (fun ent => os_path_join directory ent.ename)

/-- A JSON value as `json.loads` produces and `json.dump` consumes, with
numbers restricted to integers (see the header comment).  Objects are the
ordered key/value sequences of a Python `dict`. -/
inductive J where
  | null : J
  | bool (b : Bool) : J
  | num (n : Int) : J
  | str (s : String) : J
  | arr (elems : List J) : J
  | obj (members : List (String × J)) : J
deriving Repr

/-- Python `indent * ' '`: the indentation prefix `json.dump` writes. -/
def spacesN (n : Nat) : List Char := List.replicate n ' '

/-- The decimal digit character for `n < 10`. -/
def digitChar (n : Nat) : Char := Char.ofNat (48 + n)

/-- Fueled accumulator loop producing the decimal digits of `n` (fuel
`n + 1` always suffices; kept structural so that the kernel can evaluate
it). -/
def natDecAux : Nat → Nat → List Char → List Char
  | 0, _, acc => acc
  | Nat.succ fuel, n, acc =>
    let acc' := digitChar (n % 10) :: acc
    if n < 10 then acc' else natDecAux fuel (n / 10) acc'

/-- The decimal digits of `n`, most significant first. -/
def natDec (n : Nat) : List Char := natDecAux (n + 1) n []

/-- Recursive specification of `natDec`, used in proofs. -/
def natDecList (n : Nat) : List Char :=
  if _h : n < 10 then [digitChar n] else natDecList (n / 10) ++ [digitChar (n % 10)]
decreasing_by exact Nat.div_lt_self (by omega) (by omega)

/-- Python `repr(i)` for a Python `int`, as `json.dump` writes it. -/
def intDec (i : Int) : List Char := if i < 0 then '-' :: natDec i.natAbs else natDec i.natAbs

/-- Lowercase hexadecimal digit character for `n < 16`. -/
def hexDigitChar (n : Nat) : Char := if n < 10 then Char.ofNat (48 + n) else Char.ofNat (87 + n)

/-- Four lowercase hex digits of `n < 0x10000`, as in a `\uXXXX` escape. -/
def hex4 (n : Nat) : List Char :=
  [hexDigitChar (n / 4096 % 16), hexDigitChar (n / 256 % 16), hexDigitChar (n / 16 % 16), hexDigitChar (n % 16)]

/-- How `json.dump` (default `ensure_ascii=True`) renders one character of a
string: `"` and `\` and the named control characters get two-character
escapes, printable ASCII is copied, and everything else becomes `\uXXXX`
escapes (a surrogate pair of them beyond the BMP), per CPython's
`py_encode_basestring_ascii`. -/
def escChar (c : Char) : List Char :=
  if c = '"' then ['\\', '"']
  else if c = '\\' then ['\\', '\\']
  else if c = '\n' then ['\\', 'n']
  else if c = '\r' then ['\\', 'r']
  else if c = '\t' then ['\\', 't']
  else if c = '\x08' then ['\\', 'b']
  else if c = '\x0c' then ['\\', 'f']
  else if 32 ≤ c.toNat ∧ c.toNat ≤ 126 then [c]
  else if c.toNat < 65536 then '\\' :: 'u' :: hex4 c.toNat
  else ('\\' :: 'u' :: hex4 (55296 + (c.toNat - 65536) / 1024)) ++
    ('\\' :: 'u' :: hex4 (56320 + (c.toNat - 65536) % 1024))

/-- A JSON string literal: quote, escaped characters, quote. -/
def escString (s : String) : List Char := '"' :: (s.data.map escChar).flatten ++ ['"']

mutual
/-- Python `json.dump(v, f, indent=4)` at current indentation width `ind`:
with `indent` given, CPython separates items by `","` plus a newline and
the next indentation, keys by `": "`, and puts the closing bracket on its
own line at the enclosing indentation; empty containers print as `[]`/`{}`. -/
def encVal : Nat → J → List Char
  | _, J.null => ['n', 'u', 'l', 'l']
  | _, J.bool true => ['t', 'r', 'u', 'e']
  | _, J.bool false => ['f', 'a', 'l', 's', 'e']
  | _, J.num i => intDec i
  | _, J.str s => escString s
  | _, J.arr [] => ['[', ']']
  | ind, J.arr (v :: vs) =>
    '[' :: '\n' :: spacesN (ind + 4) ++ encArrItems (ind + 4) v vs ++ '\n' :: spacesN ind ++ [']']
  | _, J.obj [] => ['\x7b', '\x7d']
  | ind, J.obj (m :: ms) =>
    '\x7b' :: '\n' :: spacesN (ind + 4) ++ encObjItems (ind + 4) m ms ++ '\n' :: spacesN ind ++ ['\x7d']
termination_by _ v => sizeOf v
/-- The comma/newline-separated renderings of the items `v :: vs`. -/
def encArrItems : Nat → J → List J → List Char
  | ind, v, [] => encVal ind v
  | ind, v, w :: ws => encVal ind v ++ ',' :: '\n' :: spacesN ind ++ encArrItems ind w ws
termination_by _ v vs => 1 + sizeOf v + sizeOf vs
/-- The comma/newline-separated renderings of the members `m :: ms`. -/
def encObjItems : Nat → (String × J) → List (String × J) → List Char
  | ind, (k, v), [] => escString k ++ ':' :: ' ' :: encVal ind v
  | ind, (k, v), n :: ns =>
    (escString k ++ ':' :: ' ' :: encVal ind v) ++ ',' :: '\n' :: spacesN ind ++ encObjItems ind n ns
termination_by _ m ms => 1 + sizeOf m + sizeOf ms
end

/-- The text `json.dump(v, f, indent=4)` writes (top level starts at
indentation 0). -/
def json_dumps_indent4 (v : J) : String := String.mk (encVal 0 v)

/-- Is `c` a decimal digit? -/
def isDigitChar (c : Char) : Bool := decide (48 ≤ c.toNat) && decide (c.toNat ≤ 57)

/-- JSON insignificant whitespace, CPython's `WHITESPACE = [ \t\n\r]*`. -/
def isWsChar (c : Char) : Bool := c = ' ' || c = '\t' || c = '\n' || c = '\r'

/-- Drop leading JSON whitespace. -/
def skipWs : List Char → List Char
  | c :: r => if isWsChar c then skipWs r else c :: r
  | [] => []

/-- Value of one hexadecimal digit (either case), if it is one. -/
def hexVal (c : Char) : Option Nat :=
  if 48 ≤ c.toNat ∧ c.toNat ≤ 57 then some (c.toNat - 48)
  else if 97 ≤ c.toNat ∧ c.toNat ≤ 102 then some (c.toNat - 87)
  else if 65 ≤ c.toNat ∧ c.toNat ≤ 70 then some (c.toNat - 55)
  else none

/-- Value of the four hex digits of a `\uXXXX` escape. -/
def hex4Val (a b c d : Char) : Option Nat :=
  match hexVal a, hexVal b, hexVal c, hexVal d with
  | some va, some vb, some vc, some vd => some (4096 * va + 256 * vb + 16 * vc + vd)
  | _, _, _, _ => none

/-- CPython's `py_scanstring` after the opening quote, in its default strict
mode: raw control characters are rejected, the named escapes and `\uXXXX`
are decoded, and a high/low `\uXXXX` surrogate pair is combined into one
character.  A *lone* surrogate escape (which CPython would keep as a lone
surrogate code unit in the `str`) has no `Char` counterpart and is rejected;
the serializer never emits one.  Returns the decoded characters and the
input after the closing quote.  The fuel argument only bounds the recursion
(each step consumes at least one input character, so `length + 1` always
suffices, and the call sites pass exactly that). -/
def parseStrBody : Nat → List Char → Option (List Char × List Char)
  | 0, _ => none
  | Nat.succ _, [] => none
  | Nat.succ fuel, c :: r =>
    if c = '"' then some ([], r)
    else if c = '\\' then
      match r with
      | [] => none
      | e :: r2 =>
        if e = '"' then (parseStrBody fuel r2).map (fun p => ('"' :: p.1, p.2))
        else if e = '\\' then (parseStrBody fuel r2).map (fun p => ('\\' :: p.1, p.2))
        else if e = '/' then (parseStrBody fuel r2).map (fun p => ('/' :: p.1, p.2))
        else if e = 'b' then (parseStrBody fuel r2).map (fun p => ('\x08' :: p.1, p.2))
        else if e = 'f' then (parseStrBody fuel r2).map (fun p => ('\x0c' :: p.1, p.2))
        else if e = 'n' then (parseStrBody fuel r2).map (fun p => ('\n' :: p.1, p.2))
        else if e = 'r' then (parseStrBody fuel r2).map (fun p => ('\r' :: p.1, p.2))
        else if e = 't' then (parseStrBody fuel r2).map (fun p => ('\t' :: p.1, p.2))
        else if e = 'u' then
          match r2 with
          | a :: b :: c2 :: d :: r3 =>
            match hex4Val a b c2 d with
            | none => none
            | some h =>
              if 55296 ≤ h ∧ h ≤ 56319 then
                match r3 with
                | '\\' :: 'u' :: a2 :: b2 :: c3 :: d2 :: r4 =>
                  match hex4Val a2 b2 c3 d2 with
                  | none => none
                  | some lo =>
                    if 56320 ≤ lo ∧ lo ≤ 57343 then
                      (parseStrBody fuel r4).map
                        (fun p => (Char.ofNat (65536 + (h - 55296) * 1024 + (lo - 56320)) :: p.1, p.2))
                    else none
                | _ => none
              else if 56320 ≤ h ∧ h ≤ 57343 then none
              else (parseStrBody fuel r3).map (fun p => (Char.ofNat h :: p.1, p.2))
          | _ => none
        else none
    else if c.toNat < 32 then none
    else (parseStrBody fuel r).map (fun p => (c :: p.1, p.2))

/-- Greedy decimal digit accumulation, as the integer part of CPython's
`NUMBER_RE` match. -/
def parseDigits : List Char → Nat → Nat × List Char
  | c :: r, acc => if isDigitChar c then parseDigits r (acc * 10 + (c.toNat - 48)) else (acc, c :: r)
  | [], acc => (acc, [])

/-- Would the next character extend the number into a float (fraction or
exponent)?  Floats are outside the model (header comment). -/
def expCont : List Char → Bool
  | c :: _ => c = '.' || c = 'e' || c = 'E'
  | [] => false

/-- Would the next character extend a leading `0` into a longer token? -/
def numCont : List Char → Bool
  | c :: _ => isDigitChar c || c = '.' || c = 'e' || c = 'E'
  | [] => false

/-- An unsigned JSON integer: `0` alone, or a nonzero digit followed by
digits; a following fraction/exponent (a float) falls outside the model and
is rejected, as is a digit after a leading `0` (which CPython rejects one
token later). -/
def parseUNum : List Char → Option (Nat × List Char)
  | [] => none
  | c :: r =>
    if c = '0' then (if numCont r then none else some (0, r))
    else if isDigitChar c then
      (fun pr => if expCont pr.2 then none else some pr) (parseDigits (c :: r) 0)
    else none

/-- A JSON integer with optional leading minus sign. -/
def parseNum : List Char → Option (Int × List Char)
  | [] => none
  | c :: r =>
    if c = '-' then (parseUNum r).map (fun p => (-(p.1 : Int), p.2))
    else (parseUNum (c :: r)).map (fun p => ((p.1 : Int), p.2))

mutual
/-- CPython's `scan_once`: skip whitespace, then dispatch on the first
character to a literal, string, array, object or number.  The `fuel`
argument only bounds the nesting recursion (CPython recurses on the call
stack); `parse_enc_fuel_le_length` below shows `length + 1` fuel always
suffices for serializer output. -/
def parseVal : Nat → List Char → Option (J × List Char)
  | 0, _ => none
  | Nat.succ fuel, cs =>
    match skipWs cs with
    | [] => none
    | c :: r =>
      if c = 'n' then
        match r with
        | 'u' :: 'l' :: 'l' :: r2 => some (J.null, r2)
        | _ => none
      else if c = 't' then
        match r with
        | 'r' :: 'u' :: 'e' :: r2 => some (J.bool true, r2)
        | _ => none
      else if c = 'f' then
        match r with
        | 'a' :: 'l' :: 's' :: 'e' :: r2 => some (J.bool false, r2)
        | _ => none
      else if c = '"' then (parseStrBody (r.length + 1) r).map (fun p => (J.str (String.mk p.1), p.2))
      else if c = '[' then
        match skipWs r with
        | [] => (parseArrTail fuel r).map (fun p => (J.arr p.1, p.2))
        | d :: r2 =>
          if d = ']' then some (J.arr [], r2)
          else (parseArrTail fuel r).map (fun p => (J.arr p.1, p.2))
      else if c = '\x7b' then
        match skipWs r with
        | [] => (parseObjTail fuel r).map (fun p => (J.obj p.1, p.2))
        | d :: r2 =>
          if d = '\x7d' then some (J.obj [], r2)
          else (parseObjTail fuel r).map (fun p => (J.obj p.1, p.2))
      else (parseNum (c :: r)).map (fun p => (J.num p.1, p.2))
/-- The elements of a non-empty array after its `[`: value, then `,` and
more elements or the closing `]`. -/
def parseArrTail : Nat → List Char → Option (List J × List Char)
  | 0, _ => none
  | Nat.succ fuel, cs =>
    match parseVal fuel cs with
    | none => none
    | some (v, r) =>
      match skipWs r with
      | [] => none
      | d :: r2 =>
        if d = ',' then (parseArrTail fuel r2).map (fun p => (v :: p.1, p.2))
        else if d = ']' then some ([v], r2)
        else none
/-- The members of a non-empty object after its opening brace: quoted key,
`:`, value, then `,` and more members or the closing brace. -/
def parseObjTail : Nat → List Char → Option (List (String × J) × List Char)
  | 0, _ => none
  | Nat.succ fuel, cs =>
    match skipWs cs with
    | [] => none
    | c :: r =>
      if c = '"' then
        match parseStrBody (r.length + 1) r with
        | none => none
        | some (k, r1) =>
          match skipWs r1 with
          | [] => none
          | d :: r2 =>
            if d = ':' then
              match parseVal fuel r2 with
              | none => none
              | some (v, r3) =>
                match skipWs r3 with
                | [] => none
                | d2 :: r4 =>
                  if d2 = ',' then
                    (parseObjTail fuel r4).map (fun p => ((String.mk k, v) :: p.1, p.2))
                  else if d2 = '\x7d' then some ([(String.mk k, v)], r4)
                  else none
            else none
      else none
end

/-- Python `json.loads(s)`: parse one value and require only whitespace after it
("Extra data" otherwise).  `none` models the `json.JSONDecodeError` raise. -/
def json_loads (s : String) : Option J :=
  match parseVal (s.data.length + 1) s.data with
  | some (v, r) => if skipWs r = [] then some v else none
  | none => none

/-- One iteration of the loop of `extract_json_from_audio` (lines 50-71 of
`main.py`), before the `except` handler: the emitted events together with
the exception that escapes the iteration's body, if any.  Following the
source order: guess the MIME type (`None.startswith` raises
`AttributeError`); skip non-audio files with a warning; log and upload;
normalize the result to a list; wait for readiness; issue the chat request
seeded with the uploaded parts; compute the output path; `open(..., "w")`
(truncating); `json.loads` the response text (raising on malformed JSON);
`json.dump` the value with `indent=4`; log success. -/
def processFile (env : Env) (user_prompt output_directory file_path : String) :
    List Event × Option PyErr :=
  match env.guess_type file_path with
  | none => ([], some attributeErrorNone)
  | some mime_type =>
    if ¬ str_startswith mime_type ("audio/") then
      ([Event.logWarning ("Skipping non-audio file: " ++ file_path)], none)
    else
      let evs0 := [Event.logInfo ("Uploading: " ++ file_path), Event.uploadCall file_path mime_type]
      match env.upload_to_gemini file_path with
      | Except.error e => (evs0, some e)
      | Except.ok up =>
        let uploaded_parts := normalizeUploaded up
        let evs1 := evs0 ++ [Event.waitCall uploaded_parts]
        match wait_for_files_active uploaded_parts with
        | Except.error e => (evs1, some e)
        | Except.ok _ =>
          let evs2 := evs1 ++ [Event.chatCall uploaded_parts user_prompt]
          match env.send_message file_path with
          | Except.error e => (evs2, some e)
          | Except.ok text =>
            let json_path := derivedJsonPath output_directory file_path
            let evs3 := evs2 ++ [Event.openTrunc json_path]
            match json_loads text with
            | none => (evs3, some jsonDecodeError)
            | some v =>
              (evs3 ++ [Event.writeOut json_path (json_dumps_indent4 v),
                Event.logInfo ("Saved transcription to: " ++ json_path)], none)

/-- The events one file contributes to the run's trace: its iteration's
events, followed by the `logging.error(f"Error processing {file_path}: {e}")`
line when the `except Exception` handler fires. -/
def fileTrace (env : Env) (user_prompt output_directory file_path : String) : List Event :=
  let r := processFile env user_prompt output_directory file_path
  r.1 ++ (match r.2 with | some e => [Event.logError file_path e] | none => [])

/-- The `for file_path in tqdm(file_paths, ...)` loop with its
`try/except Exception` handler: an `Exception`-derived error is logged and
the loop continues; any other escaping exception (`KeyboardInterrupt`,
`SystemExit`, ...) aborts the loop and propagates. -/
def runLoop (env : Env) (user_prompt output_directory : String) :
    List String → List Event × Option PyErr
  | [] => ([], none)
  | p :: rest =>
    let r := processFile env user_prompt output_directory p
    match r.2 with
    | none =>
      let rr := runLoop env user_prompt output_directory rest
      (r.1 ++ rr.1, rr.2)
    | some e =>
      if e.isExc then
        let rr := runLoop env user_prompt output_directory rest
        (r.1 ++ Event.logError p e :: rr.1, rr.2)
      else (r.1, some e)

/-- The function `extract_json_from_audio(file_paths, _user_prompt, output_directory)`
(lines 20-74 of `main.py`): construct the model (a local object, no
observable effect), `os.makedirs(output_directory, exist_ok=True)` — whose
failure is not caught and aborts the run before any file is processed —
then the per-file loop. -/
def extract_json_from_audio (env : Env) (file_paths : List String)
    (user_prompt output_directory : String) : List Event × Option PyErr :=
  match env.makedirs_error with
  | some e => ([], some e)
  | none =>
    let r := runLoop env user_prompt output_directory file_paths
    (Event.makeDirs output_directory :: r.1, r.2)

/-- The concatenation of every file's `fileTrace`, in input order: the trace
shape of a run no file of which aborts the batch. -/
def tracesOf (env : Env) (user_prompt output_directory : String) : List String → List Event
  | [] => []
  | p :: rest =>
    fileTrace env user_prompt output_directory p ++ tracesOf env user_prompt output_directory rest

/-- Every error the environment can inject (upload failure, chat failure) is
of an `Exception`-derived class, as network/API errors are.  The internally
raised errors (`AttributeError`, `JSONDecodeError`, the processing-failed
error) are `Exception`-derived by construction. -/
def envOnlyExc (env : Env) : Prop :=
  (∀ p e, env.upload_to_gemini p = Except.error e → e.isExc = true) ∧
  (∀ p e, env.send_message p = Except.error e → e.isExc = true)

/-- In `evs`, every chat request referencing a list of asset handles is
preceded by a readiness wait over that same list of handles. -/
def waitBeforeChat (evs : List Event) : Prop :=
  ∀ parts prompt pre post, evs = pre ++ Event.chatCall parts prompt :: post →
    Event.waitCall parts ∈ pre

/-- Every character of the list is JSON whitespace. -/
def allWs (cs : List Char) : Prop := ∀ c ∈ cs, isWsChar c = true

/-- The remainder does not begin with a character that could extend a just
parsed number (a digit, or a fraction/exponent introducer). -/
def numStop (cs : List Char) : Prop :=
  match cs with
  | [] => True
  | c :: _ => isDigitChar c = false ∧ c ≠ '.' ∧ c ≠ 'e' ∧ c ≠ 'E'

mutual
/-- Parser fuel sufficient for a serialized value (each `parseVal` /
`parseArrTail` / `parseObjTail` call consumes one unit). -/
def jfuel : J → Nat
  | J.null => 1
  | J.bool _ => 1
  | J.num _ => 1
  | J.str _ => 1
  | J.arr [] => 1
  | J.arr (v :: vs) => 1 + jfuelL v vs
  | J.obj [] => 1
  | J.obj (m :: ms) => 1 + jfuelO m ms
termination_by v => sizeOf v
/-- Fuel sufficient for `parseArrTail` on the serialized items `v :: vs`. -/
def jfuelL : J → List J → Nat
  | v, [] => 1 + jfuel v
  | v, w :: ws => 1 + max (jfuel v) (jfuelL w ws)
termination_by v vs => 1 + sizeOf v + sizeOf vs
/-- Fuel sufficient for `parseObjTail` on the serialized members `m :: ms`. -/
def jfuelO : (String × J) → List (String × J) → Nat
  | (_, v), [] => 1 + jfuel v
  | (_, v), n :: ns => 1 + max (jfuel v) (jfuelO n ns)
termination_by m ms => 1 + sizeOf m + sizeOf ms
end

/-- A `guess_type` that never determines a content type. -/
def gtNone : String → Option String := fun _ => none

/-- An asset handle whose polling reports the ready state. -/
def readyHandle : AssetHandle := ⟨"files/asset-1", AssetState.ready⟩

/-- An asset handle whose polling reports the failed state. -/
def failedHandle : AssetHandle := ⟨"files/asset-2", AssetState.failed⟩

/-- Environment whose chat response is not valid JSON. -/
def envParseFail : Env :=
  ⟨fun _ => some ("audio/mpeg"), fun _ => Except.ok (UploadResult.listed [readyHandle]),
    fun _ => Except.ok ("not json"), none⟩

/-- Environment whose chat response is the valid JSON text `7`. -/
def envSuccess : Env :=
  ⟨fun _ => some ("audio/mpeg"), fun _ => Except.ok (UploadResult.single readyHandle),
    fun _ => Except.ok ("7"), none⟩

/-- Environment whose upload raises an `Exception`-derived error. -/
def envUploadExc : Env :=
  ⟨fun _ => some ("audio/mpeg"), fun _ => Except.error ⟨"RuntimeError", true⟩,
    fun _ => Except.ok ("7"), none⟩

/-- Environment whose upload raises `KeyboardInterrupt`, which does not derive
from `Exception`. -/
def envInterrupted : Env :=
  ⟨fun _ => some ("audio/mpeg"), fun _ => Except.error ⟨"KeyboardInterrupt", false⟩,
    fun _ => Except.ok ("7"), none⟩

/-- Environment whose uploaded asset reaches the failed readiness state. -/
def envWaitFailed : Env :=
  ⟨fun _ => some ("audio/mpeg"), fun _ => Except.ok (UploadResult.listed [failedHandle]),
    fun _ => Except.ok ("7"), none⟩

/-- A concrete content-type table for the discoverer witness. -/
def gtTable : String → Option String :=
  fun p =>
    if p = "AudioData/call1.wav" then some ("audio/wav")
    else if p = "AudioData/notes.txt" then some ("text/plain")
    else none

/-- A concrete directory listing: one audio file, one text file, one
subdirectory. -/
def listingC3 : List DirEntry := [⟨"call1.wav", true⟩, ⟨"notes.txt", true⟩, ⟨"sub", false⟩]

/-! ## Character and whitespace lemmas -/

theorem charToNat_ofNat_valid (n : Nat) (h : Nat.isValidChar n) : (Char.ofNat n).toNat = n := by
  rw [Char.ofNat, dif_pos h]
  rfl

theorem char_eq_of_toNat {c d : Char} (h : c.toNat = d.toNat) : c = d := by
  apply Char.eq_of_val_eq
  apply UInt32.eq_of_toBitVec_eq
  exact BitVec.toNat_injective h

theorem char_valid_toNat (c : Char) : Nat.isValidChar c.toNat := c.valid

theorem skipWs_cons_of_not_ws {c : Char} (r : List Char) (h : isWsChar c = false) :
    skipWs (c :: r) = c :: r := by
  simp [skipWs, h]

theorem skipWs_append_allWs {w : List Char} (cs : List Char) (h : allWs w) :
    skipWs (w ++ cs) = skipWs cs := by
  induction w with
  | nil => rfl
  | cons d t ih =>
    have hd : isWsChar d = true := h d (List.mem_cons_self d t)
    have ht : allWs t := fun c hc => h c (List.mem_cons_of_mem d hc)
    simp [skipWs, hd, ih ht]

theorem allWs_spacesN (n : Nat) : allWs (spacesN n) := by
  intro c hc
  rw [spacesN, List.mem_replicate] at hc
  rw [hc.2]
  rfl

theorem allWs_newline_spacesN (n : Nat) : allWs ('\n' :: spacesN n) := by
  intro c hc
  rcases List.mem_cons.mp hc with h | h
  · rw [h]; rfl
  · exact allWs_spacesN n c h

theorem ws_head_numStop {d : Char} (h : isWsChar d = true) :
    isDigitChar d = false ∧ d ≠ '.' ∧ d ≠ 'e' ∧ d ≠ 'E' := by
  rw [isWsChar] at h
  simp only [Bool.or_eq_true, decide_eq_true_eq] at h
  rcases h with ((rfl | rfl) | rfl) | rfl <;> exact ⟨by decide, by decide, by decide, by decide⟩

theorem numStop_append {w : List Char} {c : Char} (r : List Char) (hw : allWs w)
    (hc : isDigitChar c = false ∧ c ≠ '.' ∧ c ≠ 'e' ∧ c ≠ 'E') :
    numStop (w ++ c :: r) := by
  cases w with
  | nil => exact hc
  | cons d t => exact ws_head_numStop (hw d (List.mem_cons_self d t))

/-! ## Decimal integer printing and parsing -/

theorem natDecAux_eq (fuel : Nat) : ∀ n acc, n < fuel → natDecAux fuel n acc = natDecList n ++ acc := by
  induction fuel with
  | zero => intro n acc h; omega
  | succ fuel ih =>
    intro n acc h
    rw [natDecAux, natDecList]
    by_cases h10 : n < 10
    · rw [if_pos h10, dif_pos h10, Nat.mod_eq_of_lt h10]
      rfl
    · rw [if_neg h10, dif_neg h10, ih (n / 10) _ (by omega), List.append_assoc]
      rfl

theorem natDec_eq (n : Nat) : natDec n = natDecList n := by
  rw [natDec, natDecAux_eq (n + 1) n [] (by omega), List.append_nil]

theorem digitChar_toNat {d : Nat} (h : d < 10) : (digitChar d).toNat = 48 + d :=
  charToNat_ofNat_valid (48 + d) (Or.inl (by omega))

theorem isDigitChar_digitChar {d : Nat} (h : d < 10) : isDigitChar (digitChar d) = true := by
  rw [isDigitChar, digitChar_toNat h]
  simp only [Bool.and_eq_true, decide_eq_true_eq]
  omega

theorem digitChar_ne_zero_char {d : Nat} (h0 : d ≠ 0) (h : d < 10) : digitChar d ≠ '0' := by
  intro heq
  have : (digitChar d).toNat = 48 := by rw [heq]; rfl
  rw [digitChar_toNat h] at this
  omega

theorem natDecList_head (n : Nat) :
    ∃ c t, natDecList n = c :: t ∧ isDigitChar c = true ∧ (n ≠ 0 → c ≠ '0') := by
  induction n using Nat.strong_induction_on with
  | _ n ih =>
    rw [natDecList]
    by_cases h10 : n < 10
    · rw [dif_pos h10]
      exact ⟨digitChar n, [], rfl, isDigitChar_digitChar h10,
        fun hn => digitChar_ne_zero_char hn h10⟩
    · rw [dif_neg h10]
      obtain ⟨c, t, heq, hdig, hne⟩ := ih (n / 10) (Nat.div_lt_self (by omega) (by omega))
      exact ⟨c, t ++ [digitChar (n % 10)], by rw [heq]; rfl, hdig,
        fun _ => hne (by omega)⟩

theorem parseDigits_stop {rest : List Char} (acc : Nat) (h : numStop rest) :
    parseDigits rest acc = (acc, rest) := by
  cases rest with
  | nil => rfl
  | cons c r =>
    rw [parseDigits, if_neg]
    rw [Bool.not_eq_true]
    exact h.1

theorem parseDigits_natDecList (n : Nat) :
    ∀ acc rest, parseDigits (natDecList n ++ rest) acc =
      parseDigits rest (acc * 10 ^ (natDecList n).length + n) := by
  induction n using Nat.strong_induction_on with
  | _ n ih =>
    intro acc rest
    by_cases h10 : n < 10
    · rw [natDecList, dif_pos h10]
      rw [List.singleton_append, parseDigits, if_pos (isDigitChar_digitChar h10),
        digitChar_toNat h10]
      norm_num
    · rw [natDecList, dif_neg h10, List.append_assoc, List.singleton_append,
        ih (n / 10) (Nat.div_lt_self (by omega) (by omega)),
        parseDigits, if_pos (isDigitChar_digitChar (by omega : n % 10 < 10)),
        digitChar_toNat (by omega : n % 10 < 10)]
      congr 1
      have h48 : 48 + n % 10 - 48 = n % 10 := by omega
      rw [h48, List.length_append, List.length_singleton, Nat.pow_succ, ← Nat.mul_assoc]
      generalize acc * 10 ^ (natDecList (n / 10)).length = X
      ring_nf
      omega

theorem expCont_of_numStop {rest : List Char} (h : numStop rest) : expCont rest = false := by
  cases rest with
  | nil => rfl
  | cons c r =>
    obtain ⟨_, h2, h3, h4⟩ := h
    simp [expCont, h2, h3, h4]

theorem numCont_of_numStop {rest : List Char} (h : numStop rest) : numCont rest = false := by
  cases rest with
  | nil => rfl
  | cons c r =>
    obtain ⟨h1, h2, h3, h4⟩ := h
    simp [numCont, h1, h2, h3, h4]

theorem parseUNum_natDecList (n : Nat) {rest : List Char} (h : numStop rest) :
    parseUNum (natDecList n ++ rest) = some (n, rest) := by
  rcases Nat.eq_zero_or_pos n with hn | hn
  · subst hn
    have h0 : natDecList 0 = ['0'] := by rw [natDecList]; rfl
    rw [h0, List.singleton_append, parseUNum, if_pos rfl, if_neg]
    rw [Bool.not_eq_true]
    exact numCont_of_numStop h
  · obtain ⟨c, t, heq, hdig, hne⟩ := natDecList_head n
    rw [heq, List.cons_append, parseUNum, if_neg (hne (by omega)), if_pos hdig,
      ← List.cons_append, ← heq, parseDigits_natDecList n 0 rest, parseDigits_stop _ h]
    simp [expCont_of_numStop h]

theorem digit_head_ne_minus {c : Char} (h : isDigitChar c = true) : c ≠ '-' := by
  intro heq
  rw [isDigitChar] at h
  simp only [Bool.and_eq_true, decide_eq_true_eq] at h
  subst heq
  exact absurd h (by decide)

theorem parseNum_intDec (i : Int) {rest : List Char} (h : numStop rest) :
    parseNum (intDec i ++ rest) = some (i, rest) := by
  rw [intDec]
  by_cases hneg : i < 0
  · rw [if_pos hneg, natDec_eq, List.cons_append, parseNum, if_pos rfl,
      parseUNum_natDecList i.natAbs h]
    have : (-(i.natAbs : Int)) = i := by omega
    rw [Option.map_some']
    rw [this]
  · rw [if_neg hneg, natDec_eq]
    obtain ⟨c, t, heq, hdig, _⟩ := natDecList_head i.natAbs
    rw [heq, List.cons_append, parseNum, if_neg (digit_head_ne_minus hdig),
      ← List.cons_append, ← heq, parseUNum_natDecList i.natAbs h]
    have : ((i.natAbs : Nat) : Int) = i := by omega
    rw [Option.map_some']
    rw [this]


/-! ## String escaping round-trip -/

theorem hexVal_hexDigitChar {v : Nat} (h : v < 16) : hexVal (hexDigitChar v) = some v := by
  rw [hexDigitChar]
  by_cases h10 : v < 10
  · have ht : (Char.ofNat (48 + v)).toNat = 48 + v := charToNat_ofNat_valid _ (Or.inl (by omega))
    rw [if_pos h10, hexVal, ht, if_pos ⟨by omega, by omega⟩]
    exact congrArg some (by omega)
  · have ht : (Char.ofNat (87 + v)).toNat = 87 + v := charToNat_ofNat_valid _ (Or.inl (by omega))
    rw [if_neg h10, hexVal, ht, if_neg (by omega), if_pos ⟨by omega, by omega⟩]
    exact congrArg some (by omega)

theorem hex4Val_hex4 (h : Nat) (hlt : h < 65536) :
    hex4Val (hexDigitChar (h / 4096 % 16)) (hexDigitChar (h / 256 % 16))
      (hexDigitChar (h / 16 % 16)) (hexDigitChar (h % 16)) = some h := by
  rw [hex4Val, hexVal_hexDigitChar (by omega), hexVal_hexDigitChar (by omega),
    hexVal_hexDigitChar (by omega), hexVal_hexDigitChar (by omega)]
  simp only []
  exact congrArg some (by omega)

theorem psb_quote (f : Nat) (r : List Char) : parseStrBody (f + 1) ('"' :: r) = some ([], r) := by
  rw [parseStrBody.eq_def]
  simp only [if_true]

theorem psb_esc_quote (f : Nat) (r : List Char) :
    parseStrBody (f + 1) ('\\' :: '"' :: r) =
      (parseStrBody f r).map (fun p => ('"' :: p.1, p.2)) := by
  rw [parseStrBody.eq_def]
  simp only [if_true]
  rw [if_neg (by decide)]

theorem psb_esc_back (f : Nat) (r : List Char) :
    parseStrBody (f + 1) ('\\' :: '\\' :: r) =
      (parseStrBody f r).map (fun p => ('\\' :: p.1, p.2)) := by
  rw [parseStrBody.eq_def]
  simp only [if_true]
  rw [if_neg (by decide), if_neg (by decide)]

theorem psb_esc_n (f : Nat) (r : List Char) :
    parseStrBody (f + 1) ('\\' :: 'n' :: r) =
      (parseStrBody f r).map (fun p => ('\n' :: p.1, p.2)) := by
  rw [parseStrBody.eq_def]
  simp only [if_true]
  rw [if_neg (by decide), if_neg (by decide), if_neg (by decide), if_neg (by decide), if_neg (by decide), if_neg (by decide)]

theorem psb_esc_r (f : Nat) (r : List Char) :
    parseStrBody (f + 1) ('\\' :: 'r' :: r) =
      (parseStrBody f r).map (fun p => ('\r' :: p.1, p.2)) := by
  rw [parseStrBody.eq_def]
  simp only [if_true]
  rw [if_neg (by decide), if_neg (by decide), if_neg (by decide), if_neg (by decide), if_neg (by decide), if_neg (by decide), if_neg (by decide)]

theorem psb_esc_t (f : Nat) (r : List Char) :
    parseStrBody (f + 1) ('\\' :: 't' :: r) =
      (parseStrBody f r).map (fun p => ('\t' :: p.1, p.2)) := by
  rw [parseStrBody.eq_def]
  simp only [if_true]
  rw [if_neg (by decide), if_neg (by decide), if_neg (by decide), if_neg (by decide),
    if_neg (by decide), if_neg (by decide), if_neg (by decide), if_neg (by decide)]

theorem psb_esc_b (f : Nat) (r : List Char) :
    parseStrBody (f + 1) ('\\' :: 'b' :: r) =
      (parseStrBody f r).map (fun p => ('\x08' :: p.1, p.2)) := by
  rw [parseStrBody.eq_def]
  simp only [if_true]
  rw [if_neg (by decide), if_neg (by decide), if_neg (by decide), if_neg (by decide)]

theorem psb_esc_f (f : Nat) (r : List Char) :
    parseStrBody (f + 1) ('\\' :: 'f' :: r) =
      (parseStrBody f r).map (fun p => ('\x0c' :: p.1, p.2)) := by
  rw [parseStrBody.eq_def]
  simp only [if_true]
  rw [if_neg (by decide), if_neg (by decide), if_neg (by decide), if_neg (by decide), if_neg (by decide)]

theorem psb_raw (f : Nat) {c : Char} (r : List Char) (h1 : ¬ c = '"') (h2 : ¬ c = '\\')
    (h3 : ¬ c.toNat < 32) :
    parseStrBody (f + 1) (c :: r) = (parseStrBody f r).map (fun p => (c :: p.1, p.2)) := by
  rw [parseStrBody.eq_def]
  simp only []
  rw [if_neg h1, if_neg h2, if_neg h3]

theorem psb_u_bmp (f : Nat) {a b c2 d : Char} {hv : Nat} (r3 : List Char)
    (ha : hex4Val a b c2 d = some hv) (hs1 : ¬ (55296 ≤ hv ∧ hv ≤ 56319))
    (hs2 : ¬ (56320 ≤ hv ∧ hv ≤ 57343)) :
    parseStrBody (f + 1) ('\\' :: 'u' :: a :: b :: c2 :: d :: r3) =
      (parseStrBody f r3).map (fun p => (Char.ofNat hv :: p.1, p.2)) := by
  rw [parseStrBody.eq_def]
  simp only [if_true]
  rw [if_neg (by decide), if_neg (by decide), if_neg (by decide), if_neg (by decide),
    if_neg (by decide), if_neg (by decide), if_neg (by decide), if_neg (by decide),
    if_neg (by decide)]
  rw [ha]
  simp only []
  rw [if_neg hs1, if_neg hs2]

theorem psb_u_pair (f : Nat) {a b c2 d a2 b2 c3 d2 : Char} {hv lo : Nat} (r4 : List Char)
    (ha : hex4Val a b c2 d = some hv) (hh : 55296 ≤ hv ∧ hv ≤ 56319)
    (hb : hex4Val a2 b2 c3 d2 = some lo) (hlo : 56320 ≤ lo ∧ lo ≤ 57343) :
    parseStrBody (f + 1)
        ('\\' :: 'u' :: a :: b :: c2 :: d :: '\\' :: 'u' :: a2 :: b2 :: c3 :: d2 :: r4) =
      (parseStrBody f r4).map
        (fun p => (Char.ofNat (65536 + (hv - 55296) * 1024 + (lo - 56320)) :: p.1, p.2)) := by
  rw [parseStrBody.eq_def]
  simp only [if_true]
  rw [if_neg (by decide), if_neg (by decide), if_neg (by decide), if_neg (by decide),
    if_neg (by decide), if_neg (by decide), if_neg (by decide), if_neg (by decide),
    if_neg (by decide)]
  rw [ha]
  simp only []
  rw [if_pos hh, hb]
  simp only []
  rw [if_pos hlo]

theorem psb_escaped (l : List Char) : ∀ (fuel : Nat) (rest : List Char),
    l.length + 1 ≤ fuel →
    parseStrBody fuel ((l.map escChar).flatten ++ '"' :: rest) = some (l, rest) := by
  induction l with
  | nil =>
    intro fuel rest hf
    obtain ⟨f, rfl⟩ : ∃ f, fuel = f + 1 := ⟨fuel - 1, by omega⟩
    rw [List.map_nil, List.flatten_nil, List.nil_append]
    exact psb_quote f rest
  | cons c t ih =>
    intro fuel rest hf
    obtain ⟨f, rfl⟩ : ∃ f, fuel = f + 1 := ⟨fuel - 1, by omega⟩
    have hf' : t.length + 1 ≤ f := by
      rw [List.length_cons] at hf
      omega
    rw [List.map_cons, List.flatten_cons, List.append_assoc, escChar]
    by_cases h1 : c = '"'
    · subst h1
      rw [if_pos rfl, List.cons_append, List.cons_append, List.nil_append, psb_esc_quote,
        ih f rest hf']
      rfl
    rw [if_neg h1]
    by_cases h2 : c = '\\'
    · subst h2
      rw [if_pos rfl, List.cons_append, List.cons_append, List.nil_append, psb_esc_back,
        ih f rest hf']
      rfl
    rw [if_neg h2]
    by_cases h3 : c = '\n'
    · subst h3
      rw [if_pos rfl, List.cons_append, List.cons_append, List.nil_append, psb_esc_n,
        ih f rest hf']
      rfl
    rw [if_neg h3]
    by_cases h4 : c = '\r'
    · subst h4
      rw [if_pos rfl, List.cons_append, List.cons_append, List.nil_append, psb_esc_r,
        ih f rest hf']
      rfl
    rw [if_neg h4]
    by_cases h5 : c = '\t'
    · subst h5
      rw [if_pos rfl, List.cons_append, List.cons_append, List.nil_append, psb_esc_t,
        ih f rest hf']
      rfl
    rw [if_neg h5]
    by_cases h6 : c = '\x08'
    · subst h6
      rw [if_pos rfl, List.cons_append, List.cons_append, List.nil_append, psb_esc_b,
        ih f rest hf']
      rfl
    rw [if_neg h6]
    by_cases h7 : c = '\x0c'
    · subst h7
      rw [if_pos rfl, List.cons_append, List.cons_append, List.nil_append, psb_esc_f,
        ih f rest hf']
      rfl
    rw [if_neg h7]
    by_cases h8 : 32 ≤ c.toNat ∧ c.toNat ≤ 126
    · rw [if_pos h8, List.singleton_append, psb_raw f _ h1 h2 (by omega), ih f rest hf']
      rfl
    rw [if_neg h8]
    have hval := char_valid_toNat c
    by_cases h9 : c.toNat < 65536
    · rw [if_pos h9, hex4]
      simp only [List.cons_append, List.nil_append]
      have hs1 : ¬ (55296 ≤ c.toNat ∧ c.toNat ≤ 56319) := by rcases hval with hv | hv <;> omega
      have hs2 : ¬ (56320 ≤ c.toNat ∧ c.toNat ≤ 57343) := by rcases hval with hv | hv <;> omega
      rw [psb_u_bmp f _ (hex4Val_hex4 c.toNat h9) hs1 hs2, ih f rest hf', Char.ofNat_toNat]
      rfl
    · rw [if_neg h9, hex4, hex4]
      simp only [List.cons_append, List.nil_append, List.append_assoc]
      have hbound : c.toNat < 1114112 := by rcases hval with hv | hv <;> omega
      have hhi : 55296 ≤ 55296 + (c.toNat - 65536) / 1024 ∧
          55296 + (c.toNat - 65536) / 1024 ≤ 56319 := by omega
      have hlo : 56320 ≤ 56320 + (c.toNat - 65536) % 1024 ∧
          56320 + (c.toNat - 65536) % 1024 ≤ 57343 := by omega
      rw [psb_u_pair f _ (hex4Val_hex4 _ (by omega)) hhi (hex4Val_hex4 _ (by omega)) hlo,
        ih f rest hf']
      have harith : 65536 + (55296 + (c.toNat - 65536) / 1024 - 55296) * 1024 +
          (56320 + (c.toNat - 65536) % 1024 - 56320) = c.toNat := by omega
      rw [harith, Char.ofNat_toNat]
      rfl

theorem escChar_length_pos (c : Char) : 1 ≤ (escChar c).length := by
  rw [escChar]
  split_ifs <;> simp

theorem length_le_flatten_escChar (l : List Char) :
    l.length ≤ ((l.map escChar).flatten).length := by
  induction l with
  | nil => simp
  | cons c t ih =>
    rw [List.map_cons, List.flatten_cons, List.length_append, List.length_cons]
    have := escChar_length_pos c
    omega

theorem parseStrBody_of_escaped (l : List Char) (rest : List Char) :
    parseStrBody (((l.map escChar).flatten ++ '"' :: rest).length + 1)
      ((l.map escChar).flatten ++ '"' :: rest) = some (l, rest) := by
  apply psb_escaped
  rw [List.length_append]
  have := length_le_flatten_escChar l
  omega

/-! ## Head-shape lemmas for the serializer -/

theorem stringMkData (s : String) : String.mk s.data = s := rfl

theorem intDec_head (i : Int) :
    ∃ c t, intDec i = c :: t ∧ (c = '-' ∨ isDigitChar c = true) := by
  rw [intDec]
  by_cases hneg : i < 0
  · rw [if_pos hneg]
    exact ⟨'-', natDec i.natAbs, rfl, Or.inl rfl⟩
  · rw [if_neg hneg, natDec_eq]
    obtain ⟨c, t, heq, hdig, _⟩ := natDecList_head i.natAbs
    exact ⟨c, t, heq, Or.inr hdig⟩

theorem numHead_facts {c : Char} (h : c = '-' ∨ isDigitChar c = true) :
    isWsChar c = false ∧ ¬ c = 'n' ∧ ¬ c = 't' ∧ ¬ c = 'f' ∧ ¬ c = '"' ∧ ¬ c = '[' ∧
      ¬ c = '\x7b' ∧ ¬ c = ']' ∧ ¬ c = '\x7d' := by
  have hval : 45 ≤ c.toNat ∧ c.toNat ≤ 57 := by
    rcases h with rfl | hdig
    · exact ⟨by decide, by decide⟩
    · rw [isDigitChar] at hdig
      simp only [Bool.and_eq_true, decide_eq_true_eq] at hdig
      omega
  have hne : ∀ d : Char, c.toNat ≠ d.toNat → ¬ c = d := by
    intro d hd heq
    exact hd (by rw [heq])
  have hsp : (' ' : Char).toNat = 32 := rfl
  have hta : ('\t' : Char).toNat = 9 := rfl
  have hnl : ('\n' : Char).toNat = 10 := rfl
  have hcr : ('\r' : Char).toNat = 13 := rfl
  refine ⟨?_, hne 'n' (by rw [show ('n' : Char).toNat = 110 from rfl]; omega),
    hne 't' (by rw [show ('t' : Char).toNat = 116 from rfl]; omega),
    hne 'f' (by rw [show ('f' : Char).toNat = 102 from rfl]; omega),
    hne '"' (by rw [show ('"' : Char).toNat = 34 from rfl]; omega),
    hne '[' (by rw [show ('[' : Char).toNat = 91 from rfl]; omega),
    hne '\x7b' (by rw [show ('\x7b' : Char).toNat = 123 from rfl]; omega),
    hne ']' (by rw [show (']' : Char).toNat = 93 from rfl]; omega),
    hne '\x7d' (by rw [show ('\x7d' : Char).toNat = 125 from rfl]; omega)⟩
  rw [isWsChar]
  simp only [Bool.or_eq_false_iff, decide_eq_false_iff_not]
  exact ⟨⟨⟨hne ' ' (by rw [hsp]; omega), hne '\t' (by rw [hta]; omega)⟩,
    hne '\n' (by rw [hnl]; omega)⟩, hne '\r' (by rw [hcr]; omega)⟩

theorem encVal_head (ind : Nat) (v : J) :
    ∃ c t, encVal ind v = c :: t ∧ isWsChar c = false ∧ ¬ c = ']' ∧ ¬ c = '\x7d' := by
  cases v with
  | null =>
    refine ⟨'n', ['u', 'l', 'l'], ?_, by decide, by decide, by decide⟩
    rw [encVal]
  | bool b =>
    cases b with
    | true =>
      refine ⟨'t', ['r', 'u', 'e'], ?_, by decide, by decide, by decide⟩
      rw [encVal]
    | false =>
      refine ⟨'f', ['a', 'l', 's', 'e'], ?_, by decide, by decide, by decide⟩
      rw [encVal]
  | num i =>
    obtain ⟨c, t, heq, hc⟩ := intDec_head i
    obtain ⟨hws, _, _, _, _, _, _, hb1, hb2⟩ := numHead_facts hc
    refine ⟨c, t, ?_, hws, hb1, hb2⟩
    rw [encVal, heq]
  | str s =>
    refine ⟨'"', (s.data.map escChar).flatten ++ ['"'], ?_, by decide, by decide, by decide⟩
    rw [encVal, escString, List.cons_append]
  | arr elems =>
    cases elems with
    | nil =>
      refine ⟨'[', [']'], ?_, by decide, by decide, by decide⟩
      rw [encVal]
    | cons v vs =>
      refine ⟨'[', '\n' :: spacesN (ind + 4) ++ encArrItems (ind + 4) v vs ++
        '\n' :: spacesN ind ++ [']'], ?_, by decide, by decide, by decide⟩
      rw [encVal]
      simp [List.cons_append, List.append_assoc]
  | obj members =>
    cases members with
    | nil =>
      refine ⟨'\x7b', ['\x7d'], ?_, by decide, by decide, by decide⟩
      rw [encVal]
    | cons m ms =>
      refine ⟨'\x7b', '\n' :: spacesN (ind + 4) ++ encObjItems (ind + 4) m ms ++
        '\n' :: spacesN ind ++ ['\x7d'], ?_, by decide, by decide, by decide⟩
      rw [encVal]
      simp [List.cons_append, List.append_assoc]

theorem encArrItems_head (ind : Nat) (v : J) (vs : List J) :
    ∃ c t, encArrItems ind v vs = c :: t ∧ isWsChar c = false ∧ ¬ c = ']' ∧ ¬ c = '\x7d' := by
  obtain ⟨c, t, heq, h1, h2, h3⟩ := encVal_head ind v
  cases vs with
  | nil =>
    refine ⟨c, t, ?_, h1, h2, h3⟩
    rw [encArrItems, heq]
  | cons w ws =>
    refine ⟨c, t ++ ',' :: '\n' :: spacesN ind ++ encArrItems ind w ws, ?_, h1, h2, h3⟩
    rw [encArrItems, heq]
    simp [List.cons_append, List.append_assoc]

theorem skipWs_lead {lead : List Char} {c : Char} (t : List Char) (hl : allWs lead)
    (hc : isWsChar c = false) : skipWs (lead ++ c :: t) = c :: t := by
  rw [skipWs_append_allWs _ hl, skipWs_cons_of_not_ws _ hc]

theorem jfuel_pos (v : J) : 1 ≤ jfuel v := by
  cases v with
  | null => rw [jfuel]
  | bool b => rw [jfuel]
  | num i => rw [jfuel]
  | str s => rw [jfuel]
  | arr elems => cases elems with
    | nil => rw [jfuel]
    | cons v vs => rw [jfuel]; omega
  | obj members => cases members with
    | nil => rw [jfuel]
    | cons m ms => rw [jfuel]; omega

theorem jfuelL_pos (v : J) (vs : List J) : 1 ≤ jfuelL v vs := by
  cases vs with
  | nil => rw [jfuelL]; omega
  | cons w ws => rw [jfuelL]; omega

theorem jfuelO_pos (m : String × J) (ms : List (String × J)) : 1 ≤ jfuelO m ms := by
  cases ms with
  | nil => obtain ⟨k, v⟩ := m; rw [jfuelO]; omega
  | cons n ns => obtain ⟨k, v⟩ := m; rw [jfuelO]; omega

theorem encObjItems_head_nil (ind : Nat) (k : String) (v : J) :
    encObjItems ind (k, v) [] =
      '"' :: ((k.data.map escChar).flatten ++ '"' :: (':' :: (' ' :: encVal ind v))) := by
  rw [encObjItems, escString]
  simp

theorem encObjItems_head_cons (ind : Nat) (k : String) (v : J) (n : String × J)
    (ns : List (String × J)) :
    encObjItems ind (k, v) (n :: ns) =
      '"' :: ((k.data.map escChar).flatten ++ '"' :: (':' :: (' ' :: (encVal ind v ++
        ',' :: '\n' :: spacesN ind ++ encObjItems ind n ns)))) := by
  rw [encObjItems, escString]
  simp

theorem numStop_comma (X : List Char) : numStop (',' :: X) :=
  ⟨by decide, by decide, by decide, by decide⟩

theorem encObjItems_head (ind : Nat) (m : String × J) (ms : List (String × J)) :
    ∃ t, encObjItems ind m ms = '"' :: t := by
  obtain ⟨k, v⟩ := m
  cases ms with
  | nil => exact ⟨_, encObjItems_head_nil ind k v⟩
  | cons n ns => exact ⟨_, encObjItems_head_cons ind k v n ns⟩

theorem allWs_single_space : allWs [' '] := by
  intro c hc
  simp only [List.mem_singleton] at hc
  rw [hc]
  rfl

/-! ## Parser-serializer round trip -/

theorem parse_enc_master : ∀ f : Nat,
    (∀ (ind : Nat) (v : J) (lead rest : List Char), jfuel v ≤ f → allWs lead → numStop rest →
      parseVal f (lead ++ encVal ind v ++ rest) = some (v, rest)) ∧
    (∀ (ind : Nat) (v : J) (vs : List J) (lead wsfx rest : List Char), jfuelL v vs ≤ f →
      allWs lead → allWs wsfx →
      parseArrTail f (lead ++ encArrItems ind v vs ++ wsfx ++ ']' :: rest) =
        some (v :: vs, rest)) ∧
    (∀ (ind : Nat) (m : String × J) (ms : List (String × J)) (lead wsfx rest : List Char),
      jfuelO m ms ≤ f → allWs lead → allWs wsfx →
      parseObjTail f (lead ++ encObjItems ind m ms ++ wsfx ++ '\x7d' :: rest) =
        some (m :: ms, rest)) := by
  intro f
  induction f with
  | zero =>
    refine ⟨fun ind v lead rest hj _ _ => absurd hj (by have := jfuel_pos v; omega),
      fun ind v vs lead wsfx rest hj _ _ => absurd hj (by have := jfuelL_pos v vs; omega),
      fun ind m ms lead wsfx rest hj _ _ => absurd hj (by have := jfuelO_pos m ms; omega)⟩
  | succ f ih =>
    obtain ⟨ihV, ihA, ihO⟩ := ih
    refine ⟨?_, ?_, ?_⟩
    · -- parseVal on a serialized value
      intro ind v lead rest hj hl hr
      cases v with
      | null =>
        rw [show encVal ind J.null = 'n' :: 'u' :: 'l' :: 'l' :: [] from by rw [encVal]]
        rw [show lead ++ ('n' :: 'u' :: 'l' :: 'l' :: []) ++ rest =
          lead ++ 'n' :: ('u' :: 'l' :: 'l' :: rest) from by simp]
        rw [parseVal.eq_def]
        simp only []
        rw [skipWs_lead _ hl (by decide)]
        simp only [if_true]
      | bool b =>
        cases b with
        | true =>
          rw [show encVal ind (J.bool true) = 't' :: 'r' :: 'u' :: 'e' :: [] from by rw [encVal]]
          rw [show lead ++ ('t' :: 'r' :: 'u' :: 'e' :: []) ++ rest =
            lead ++ 't' :: ('r' :: 'u' :: 'e' :: rest) from by simp]
          rw [parseVal.eq_def]
          simp only []
          rw [skipWs_lead _ hl (by decide)]
          simp only [if_true]
          rw [if_neg (by decide)]
        | false =>
          rw [show encVal ind (J.bool false) = 'f' :: 'a' :: 'l' :: 's' :: 'e' :: [] from by
            rw [encVal]]
          rw [show lead ++ ('f' :: 'a' :: 'l' :: 's' :: 'e' :: []) ++ rest =
            lead ++ 'f' :: ('a' :: 'l' :: 's' :: 'e' :: rest) from by simp]
          rw [parseVal.eq_def]
          simp only []
          rw [skipWs_lead _ hl (by decide)]
          simp only [if_true]
          rw [if_neg (by decide), if_neg (by decide)]
      | num i =>
        obtain ⟨c, t, heq, hc⟩ := intDec_head i
        obtain ⟨hws, h1, h2, h3, h4, h5, h6, _, _⟩ := numHead_facts hc
        rw [show encVal ind (J.num i) = intDec i from by rw [encVal], heq]
        rw [show lead ++ (c :: t) ++ rest = lead ++ c :: (t ++ rest) from by simp]
        rw [parseVal.eq_def]
        simp only []
        rw [skipWs_lead _ hl hws]
        simp only []
        rw [if_neg h1, if_neg h2, if_neg h3, if_neg h4, if_neg h5, if_neg h6]
        rw [show (c :: (t ++ rest)) = intDec i ++ rest from by rw [heq]; simp]
        rw [parseNum_intDec i hr]
        rfl
      | str s =>
        rw [show encVal ind (J.str s) = escString s from by rw [encVal]]
        rw [show lead ++ escString s ++ rest =
          lead ++ '"' :: ((s.data.map escChar).flatten ++ '"' :: rest) from by
            rw [escString]; simp]
        rw [parseVal.eq_def]
        simp only []
        rw [skipWs_lead _ hl (by decide)]
        simp only [if_true]
        rw [if_neg (by decide), if_neg (by decide), if_neg (by decide)]
        rw [parseStrBody_of_escaped s.data rest]
        simp only [Option.map_some']
      | arr elems =>
        cases elems with
        | nil =>
          rw [show encVal ind (J.arr []) = '[' :: ']' :: [] from by rw [encVal]]
          rw [show lead ++ ('[' :: ']' :: []) ++ rest = lead ++ '[' :: (']' :: rest) from by
            simp]
          rw [parseVal.eq_def]
          simp only []
          rw [skipWs_lead _ hl (by decide)]
          simp only [if_true]
          rw [if_neg (by decide), if_neg (by decide),
            if_neg (by decide), if_neg (by decide)]
          rw [skipWs_cons_of_not_ws _ (by decide)]
          simp only [if_true]
        | cons v vs =>
          have hjl : jfuelL v vs ≤ f := by rw [jfuel] at hj; omega
          obtain ⟨c2, t2, hits, hws2, hne2, _⟩ := encArrItems_head (ind + 4) v vs
          rw [show encVal ind (J.arr (v :: vs)) = '[' :: '\n' :: spacesN (ind + 4) ++
            encArrItems (ind + 4) v vs ++ '\n' :: spacesN ind ++ [']'] from by rw [encVal]]
          rw [show lead ++ ('[' :: '\n' :: spacesN (ind + 4) ++ encArrItems (ind + 4) v vs ++
              '\n' :: spacesN ind ++ [']']) ++ rest =
            lead ++ '[' :: ('\n' :: spacesN (ind + 4) ++ encArrItems (ind + 4) v vs ++
              '\n' :: spacesN ind ++ ']' :: rest) from by simp]
          rw [parseVal.eq_def]
          simp only []
          rw [skipWs_lead _ hl (by decide)]
          simp only [if_true]
          rw [if_neg (by decide), if_neg (by decide),
            if_neg (by decide), if_neg (by decide)]
          rw [show skipWs ('\n' :: spacesN (ind + 4) ++ encArrItems (ind + 4) v vs ++
              '\n' :: spacesN ind ++ ']' :: rest) =
              c2 :: (t2 ++ '\n' :: spacesN ind ++ ']' :: rest) from by
            rw [show ('\n' :: spacesN (ind + 4) ++ encArrItems (ind + 4) v vs ++
                '\n' :: spacesN ind ++ ']' :: rest) = ('\n' :: spacesN (ind + 4)) ++
                (c2 :: (t2 ++ '\n' :: spacesN ind ++ ']' :: rest)) from by rw [hits]; simp]
            exact skipWs_lead _ (allWs_newline_spacesN _) hws2]
          simp only []
          rw [if_neg hne2]
          rw [ihA (ind + 4) v vs ('\n' :: spacesN (ind + 4)) ('\n' :: spacesN ind) rest hjl
            (allWs_newline_spacesN _) (allWs_newline_spacesN _)]
          rfl
      | obj members =>
        cases members with
        | nil =>
          rw [show encVal ind (J.obj []) = '\x7b' :: '\x7d' :: [] from by rw [encVal]]
          rw [show lead ++ ('\x7b' :: '\x7d' :: []) ++ rest =
            lead ++ '\x7b' :: ('\x7d' :: rest) from by simp]
          rw [parseVal.eq_def]
          simp only []
          rw [skipWs_lead _ hl (by decide)]
          simp only [if_true]
          rw [if_neg (by decide), if_neg (by decide),
            if_neg (by decide), if_neg (by decide), if_neg (by decide)]
          rw [skipWs_cons_of_not_ws _ (by decide)]
          simp only [if_true]
        | cons m ms =>
          have hjo : jfuelO m ms ≤ f := by rw [jfuel] at hj; omega
          obtain ⟨k, v⟩ := m
          rw [show encVal ind (J.obj ((k, v) :: ms)) = '\x7b' :: '\n' :: spacesN (ind + 4) ++
            encObjItems (ind + 4) (k, v) ms ++ '\n' :: spacesN ind ++ ['\x7d'] from by
            rw [encVal]]
          rw [show lead ++ ('\x7b' :: '\n' :: spacesN (ind + 4) ++
              encObjItems (ind + 4) (k, v) ms ++ '\n' :: spacesN ind ++ ['\x7d']) ++ rest =
            lead ++ '\x7b' :: ('\n' :: spacesN (ind + 4) ++ encObjItems (ind + 4) (k, v) ms ++
              '\n' :: spacesN ind ++ '\x7d' :: rest) from by simp]
          rw [parseVal.eq_def]
          simp only []
          rw [skipWs_lead _ hl (by decide)]
          simp only [if_true]
          rw [if_neg (by decide), if_neg (by decide),
            if_neg (by decide), if_neg (by decide), if_neg (by decide)]
          have hobjhead := encObjItems_head (ind + 4) (k, v) ms
          obtain ⟨t2, hits⟩ := hobjhead
          rw [show skipWs ('\n' :: spacesN (ind + 4) ++ encObjItems (ind + 4) (k, v) ms ++
              '\n' :: spacesN ind ++ '\x7d' :: rest) =
              '"' :: (t2 ++ '\n' :: spacesN ind ++ '\x7d' :: rest) from by
            rw [show ('\n' :: spacesN (ind + 4) ++ encObjItems (ind + 4) (k, v) ms ++
                '\n' :: spacesN ind ++ '\x7d' :: rest) = ('\n' :: spacesN (ind + 4)) ++
                ('"' :: (t2 ++ '\n' :: spacesN ind ++ '\x7d' :: rest)) from by
              rw [hits]; simp]
            exact skipWs_lead _ (allWs_newline_spacesN _) (by decide)]
          simp only []
          rw [if_neg (by decide)]
          rw [ihO (ind + 4) (k, v) ms ('\n' :: spacesN (ind + 4)) ('\n' :: spacesN ind) rest
            hjo (allWs_newline_spacesN _) (allWs_newline_spacesN _)]
          rfl
    · -- parseArrTail on serialized items
      intro ind v vs lead wsfx rest hj hl hw
      cases vs with
      | nil =>
        have hjv : jfuel v ≤ f := by rw [jfuelL] at hj; omega
        rw [show lead ++ encArrItems ind v [] ++ wsfx ++ ']' :: rest =
          lead ++ encVal ind v ++ (wsfx ++ ']' :: rest) from by rw [encArrItems]; simp]
        rw [parseArrTail.eq_def]
        simp only []
        rw [ihV ind v lead (wsfx ++ ']' :: rest) hjv hl
          (numStop_append _ hw ⟨by decide, by decide, by decide, by decide⟩)]
        simp only []
        rw [skipWs_lead _ hw (by decide)]
        simp only []
        rw [if_neg (by decide)]
        simp only [if_true]
      | cons w ws =>
        have hjv : jfuel v ≤ f := by rw [jfuelL] at hj; omega
        have hjl : jfuelL w ws ≤ f := by rw [jfuelL] at hj; omega
        rw [show lead ++ encArrItems ind v (w :: ws) ++ wsfx ++ ']' :: rest =
          lead ++ encVal ind v ++ (',' :: ('\n' :: spacesN ind ++ encArrItems ind w ws ++
            wsfx ++ ']' :: rest)) from by rw [encArrItems]; simp]
        rw [parseArrTail.eq_def]
        simp only []
        rw [ihV ind v lead _ hjv hl (numStop_comma _)]
        simp only []
        rw [skipWs_cons_of_not_ws _ (by decide)]
        simp only [if_true]
        rw [ihA ind w ws ('\n' :: spacesN ind) wsfx rest hjl (allWs_newline_spacesN _) hw]
        rfl
    · -- parseObjTail on serialized members
      intro ind m ms lead wsfx rest hj hl hw
      obtain ⟨k, v⟩ := m
      cases ms with
      | nil =>
        have hjv : jfuel v ≤ f := by rw [jfuelO] at hj; omega
        rw [show lead ++ encObjItems ind (k, v) [] ++ wsfx ++ '\x7d' :: rest =
          lead ++ '"' :: ((k.data.map escChar).flatten ++ '"' ::
            (':' :: (' ' :: encVal ind v ++ (wsfx ++ '\x7d' :: rest)))) from by
          rw [encObjItems_head_nil]; simp]
        rw [parseObjTail.eq_def]
        simp only []
        rw [skipWs_lead _ hl (by decide)]
        simp only [if_true]
        rw [parseStrBody_of_escaped k.data _]
        simp only []
        rw [skipWs_cons_of_not_ws _ (by decide)]
        simp only [if_true]
        rw [show (' ' :: encVal ind v ++ (wsfx ++ '\x7d' :: rest)) =
          [' '] ++ encVal ind v ++ (wsfx ++ '\x7d' :: rest) from by simp]
        rw [ihV ind v [' '] _ hjv allWs_single_space
          (numStop_append _ hw ⟨by decide, by decide, by decide, by decide⟩)]
        simp only []
        rw [skipWs_lead _ hw (by decide)]
        simp only []
        rw [if_neg (by decide)]
        simp only [if_true]
      | cons n ns =>
        have hjv : jfuel v ≤ f := by rw [jfuelO] at hj; omega
        have hjo : jfuelO n ns ≤ f := by rw [jfuelO] at hj; omega
        rw [show lead ++ encObjItems ind (k, v) (n :: ns) ++ wsfx ++ '\x7d' :: rest =
          lead ++ '"' :: ((k.data.map escChar).flatten ++ '"' ::
            (':' :: (' ' :: encVal ind v ++ (',' :: ('\n' :: spacesN ind ++
              encObjItems ind n ns ++ wsfx ++ '\x7d' :: rest))))) from by
          rw [encObjItems_head_cons]; simp]
        rw [parseObjTail.eq_def]
        simp only []
        rw [skipWs_lead _ hl (by decide)]
        simp only [if_true]
        rw [parseStrBody_of_escaped k.data _]
        simp only []
        rw [skipWs_cons_of_not_ws _ (by decide)]
        simp only [if_true]
        rw [show (' ' :: encVal ind v ++ (',' :: ('\n' :: spacesN ind ++
            encObjItems ind n ns ++ wsfx ++ '\x7d' :: rest))) =
          [' '] ++ encVal ind v ++ (',' :: ('\n' :: spacesN ind ++
            encObjItems ind n ns ++ wsfx ++ '\x7d' :: rest)) from by simp]
        rw [ihV ind v [' '] _ hjv allWs_single_space (numStop_comma _)]
        simp only []
        rw [skipWs_cons_of_not_ws _ (by decide)]
        simp only [if_true]
        rw [ihO ind n ns ('\n' :: spacesN ind) wsfx rest hjo (allWs_newline_spacesN _) hw]
        simp only [Option.map_some']

theorem allWs_nil : allWs [] := fun c hc => absurd hc (List.not_mem_nil c)

theorem numStop_nil : numStop [] := trivial

theorem intDec_ne_nil (i : Int) : 1 ≤ (intDec i).length := by
  obtain ⟨c, t, heq, _⟩ := intDec_head i
  rw [heq]
  simp

theorem jfuel_le_encLen : ∀ n : Nat,
    (∀ v : J, jfuel v ≤ n → ∀ ind, jfuel v ≤ (encVal ind v).length) ∧
    (∀ (v : J) (vs : List J), jfuelL v vs ≤ n → ∀ ind,
      jfuelL v vs ≤ (encArrItems ind v vs).length + 1) ∧
    (∀ (m : String × J) (ms : List (String × J)), jfuelO m ms ≤ n → ∀ ind,
      jfuelO m ms ≤ (encObjItems ind m ms).length + 1) := by
  intro n
  induction n with
  | zero =>
    refine ⟨fun v hj => absurd hj (by have := jfuel_pos v; omega),
      fun v vs hj => absurd hj (by have := jfuelL_pos v vs; omega),
      fun m ms hj => absurd hj (by have := jfuelO_pos m ms; omega)⟩
  | succ n ih =>
    obtain ⟨ihV, ihA, ihO⟩ := ih
    refine ⟨?_, ?_, ?_⟩
    · intro v hj ind
      cases v with
      | null => rw [jfuel, encVal]; simp
      | bool b => cases b <;> (rw [jfuel, encVal]; simp)
      | num i =>
        rw [jfuel, encVal]
        exact intDec_ne_nil i
      | str s => rw [jfuel, encVal, escString]; simp
      | arr elems =>
        cases elems with
        | nil => rw [jfuel, encVal]; simp
        | cons v vs =>
          rw [jfuel] at hj ⊢
          have hA := ihA v vs (by omega) (ind + 4)
          rw [encVal]
          simp only [List.length_cons, List.length_append, List.length_singleton]
          omega
      | obj members =>
        cases members with
        | nil => rw [jfuel, encVal]; simp
        | cons m ms =>
          rw [jfuel] at hj ⊢
          have hO := ihO m ms (by omega) (ind + 4)
          rw [encVal]
          simp only [List.length_cons, List.length_append, List.length_singleton]
          omega
    · intro v vs hj ind
      cases vs with
      | nil =>
        rw [jfuelL] at hj ⊢
        have hV := ihV v (by omega) ind
        rw [encArrItems]
        omega
      | cons w ws =>
        rw [jfuelL] at hj ⊢
        have hV := ihV v (by omega) ind
        have hA := ihA w ws (by omega) ind
        rw [encArrItems]
        simp only [List.length_append, List.length_cons]
        omega
    · intro m ms hj ind
      obtain ⟨k, v⟩ := m
      cases ms with
      | nil =>
        rw [jfuelO] at hj ⊢
        have hV := ihV v (by omega) ind
        rw [encObjItems]
        simp only [List.length_append, List.length_cons]
        omega
      | cons n2 ns =>
        rw [jfuelO] at hj ⊢
        have hV := ihV v (by omega) ind
        have hO := ihO n2 ns (by omega) ind
        rw [encObjItems]
        simp only [List.length_append, List.length_cons]
        omega

/-- The round trip at the heart of the spec's §8 property: the text
`json.dump(v, f, indent=4)` writes is parsed back to `v` by `json.loads`. -/
theorem json_loads_dumps (v : J) : json_loads (json_dumps_indent4 v) = some v := by
  rw [json_loads, json_dumps_indent4]
  have hdata : (String.mk (encVal 0 v)).data = encVal 0 v := rfl
  rw [hdata]
  have hb : jfuel v ≤ (encVal 0 v).length + 1 := by
    have := ((jfuel_le_encLen (jfuel v)).1 v (Nat.le_refl _) 0)
    omega
  have hmaster := (parse_enc_master ((encVal 0 v).length + 1)).1 0 v [] [] hb allWs_nil
    numStop_nil
  rw [List.nil_append, List.append_nil] at hmaster
  rw [hmaster]
  rfl

/-! ## ASCII-only output (ensure_ascii) -/

theorem spacesN_ascii {c : Char} (n : Nat) (h : c ∈ spacesN n) : c.toNat ≤ 127 := by
  rw [spacesN, List.mem_replicate] at h
  rw [h.2]
  decide

theorem natDecList_all_digit : ∀ n : Nat, ∀ c ∈ natDecList n, isDigitChar c = true := by
  intro n
  induction n using Nat.strong_induction_on with
  | _ n ih =>
    intro c hc
    rw [natDecList] at hc
    by_cases h10 : n < 10
    · rw [dif_pos h10] at hc
      rw [List.mem_singleton] at hc
      rw [hc]
      exact isDigitChar_digitChar h10
    · rw [dif_neg h10] at hc
      rcases List.mem_append.mp hc with h | h
      · exact ih (n / 10) (Nat.div_lt_self (by omega) (by omega)) c h
      · rw [List.mem_singleton] at h
        rw [h]
        exact isDigitChar_digitChar (by omega)

theorem isDigitChar_ascii {c : Char} (h : isDigitChar c = true) : c.toNat ≤ 127 := by
  rw [isDigitChar] at h
  simp only [Bool.and_eq_true, decide_eq_true_eq] at h
  omega

theorem intDec_ascii {i : Int} {c : Char} (h : c ∈ intDec i) : c.toNat ≤ 127 := by
  rw [intDec] at h
  by_cases hneg : i < 0
  · rw [if_pos hneg, natDec_eq] at h
    rcases List.mem_cons.mp h with h | h
    · rw [h]; decide
    · exact isDigitChar_ascii (natDecList_all_digit _ c h)
  · rw [if_neg hneg, natDec_eq] at h
    exact isDigitChar_ascii (natDecList_all_digit _ c h)

theorem hexDigitChar_ascii {v : Nat} (hv : v < 16) : (hexDigitChar v).toNat ≤ 127 := by
  rw [hexDigitChar]
  by_cases h10 : v < 10
  · rw [if_pos h10, charToNat_ofNat_valid _ (Or.inl (by omega))]
    omega
  · rw [if_neg h10, charToNat_ofNat_valid _ (Or.inl (by omega))]
    omega

theorem hex4_ascii {h : Nat} {c : Char} (hc : c ∈ hex4 h) : c.toNat ≤ 127 := by
  rw [hex4] at hc
  simp only [List.mem_cons, List.not_mem_nil, or_false] at hc
  rcases hc with rfl | rfl | rfl | rfl <;> exact hexDigitChar_ascii (by omega)

theorem escChar_ascii {d c : Char} (h : c ∈ escChar d) : c.toNat ≤ 127 := by
  rw [escChar] at h
  split_ifs at h with h1 h2 h3 h4 h5 h6 h7 h8 h9
  · simp only [List.mem_cons, List.not_mem_nil, or_false] at h
    rcases h with rfl | rfl <;> decide
  · simp only [List.mem_cons, List.not_mem_nil, or_false] at h
    rcases h with rfl | rfl <;> decide
  · simp only [List.mem_cons, List.not_mem_nil, or_false] at h
    rcases h with rfl | rfl <;> decide
  · simp only [List.mem_cons, List.not_mem_nil, or_false] at h
    rcases h with rfl | rfl <;> decide
  · simp only [List.mem_cons, List.not_mem_nil, or_false] at h
    rcases h with rfl | rfl <;> decide
  · simp only [List.mem_cons, List.not_mem_nil, or_false] at h
    rcases h with rfl | rfl <;> decide
  · simp only [List.mem_cons, List.not_mem_nil, or_false] at h
    rcases h with rfl | rfl <;> decide
  · rw [List.mem_singleton] at h
    rw [h]
    omega
  · simp only [List.mem_cons] at h
    rcases h with rfl | rfl | h
    · decide
    · decide
    · exact hex4_ascii h
  · simp only [List.mem_append, List.mem_cons] at h
    rcases h with (rfl | rfl | h) | (rfl | rfl | h)
    · decide
    · decide
    · exact hex4_ascii h
    · decide
    · decide
    · exact hex4_ascii h

theorem escString_ascii {s : String} {c : Char} (h : c ∈ escString s) : c.toNat ≤ 127 := by
  rw [escString] at h
  rcases List.mem_cons.mp h with rfl | h
  · decide
  rcases List.mem_append.mp h with h | h
  · rw [List.mem_flatten] at h
    obtain ⟨l, hl, hcl⟩ := h
    rw [List.mem_map] at hl
    obtain ⟨d, _, rfl⟩ := hl
    exact escChar_ascii hcl
  · rw [List.mem_singleton] at h
    rw [h]
    decide

theorem encVal_ascii_master : ∀ n : Nat,
    (∀ v : J, jfuel v ≤ n → ∀ ind, ∀ c ∈ encVal ind v, c.toNat ≤ 127) ∧
    (∀ (v : J) (vs : List J), jfuelL v vs ≤ n → ∀ ind, ∀ c ∈ encArrItems ind v vs,
      c.toNat ≤ 127) ∧
    (∀ (m : String × J) (ms : List (String × J)), jfuelO m ms ≤ n → ∀ ind,
      ∀ c ∈ encObjItems ind m ms, c.toNat ≤ 127) := by
  intro n
  induction n with
  | zero =>
    refine ⟨fun v hj => absurd hj (by have := jfuel_pos v; omega),
      fun v vs hj => absurd hj (by have := jfuelL_pos v vs; omega),
      fun m ms hj => absurd hj (by have := jfuelO_pos m ms; omega)⟩
  | succ n ih =>
    obtain ⟨ihV, ihA, ihO⟩ := ih
    refine ⟨?_, ?_, ?_⟩
    · intro v hj ind c hc
      cases v with
      | null =>
        rw [encVal] at hc
        simp only [List.mem_cons, List.not_mem_nil, or_false] at hc
        rcases hc with rfl | rfl | rfl | rfl <;> decide
      | bool b =>
        cases b <;>
          (rw [encVal] at hc
           simp only [List.mem_cons, List.not_mem_nil, or_false] at hc)
        · rcases hc with rfl | rfl | rfl | rfl | rfl <;> decide
        · rcases hc with rfl | rfl | rfl | rfl <;> decide
      | num i =>
        rw [encVal] at hc
        exact intDec_ascii hc
      | str s =>
        rw [encVal] at hc
        exact escString_ascii hc
      | arr elems =>
        cases elems with
        | nil =>
          rw [encVal] at hc
          simp only [List.mem_cons, List.not_mem_nil, or_false] at hc
          rcases hc with rfl | rfl <;> decide
        | cons v vs =>
          rw [jfuel] at hj
          rw [show encVal ind (J.arr (v :: vs)) = '[' :: '\n' :: (spacesN (ind + 4) ++
            (encArrItems (ind + 4) v vs ++ ('\n' :: (spacesN ind ++ [']'])))) from by
            rw [encVal]; simp] at hc
          simp only [List.mem_cons, List.mem_append, List.mem_singleton, List.not_mem_nil,
            or_false] at hc
          rcases hc with rfl | rfl | h | h | rfl | h | rfl
          · decide
          · decide
          · exact spacesN_ascii _ h
          · exact ihA v vs (by omega) (ind + 4) c h
          · decide
          · exact spacesN_ascii _ h
          · decide
      | obj members =>
        cases members with
        | nil =>
          rw [encVal] at hc
          simp only [List.mem_cons, List.not_mem_nil, or_false] at hc
          rcases hc with rfl | rfl <;> decide
        | cons m ms =>
          rw [jfuel] at hj
          rw [show encVal ind (J.obj (m :: ms)) = '\x7b' :: '\n' :: (spacesN (ind + 4) ++
            (encObjItems (ind + 4) m ms ++ ('\n' :: (spacesN ind ++ ['\x7d'])))) from by
            rw [encVal]; simp] at hc
          simp only [List.mem_cons, List.mem_append, List.mem_singleton, List.not_mem_nil,
            or_false] at hc
          rcases hc with rfl | rfl | h | h | rfl | h | rfl
          · decide
          · decide
          · exact spacesN_ascii _ h
          · exact ihO m ms (by omega) (ind + 4) c h
          · decide
          · exact spacesN_ascii _ h
          · decide
    · intro v vs hj ind c hc
      cases vs with
      | nil =>
        rw [jfuelL] at hj
        rw [encArrItems] at hc
        exact ihV v (by omega) ind c hc
      | cons w ws =>
        rw [jfuelL] at hj
        rw [show encArrItems ind v (w :: ws) = encVal ind v ++ (',' :: '\n' ::
          (spacesN ind ++ encArrItems ind w ws)) from by rw [encArrItems]; simp] at hc
        simp only [List.mem_append, List.mem_cons] at hc
        rcases hc with h | rfl | rfl | h | h
        · exact ihV v (by omega) ind c h
        · decide
        · decide
        · exact spacesN_ascii _ h
        · exact ihA w ws (by omega) ind c h
    · intro m ms hj ind c hc
      obtain ⟨k, v⟩ := m
      cases ms with
      | nil =>
        rw [jfuelO] at hj
        rw [show encObjItems ind (k, v) [] = escString k ++ (':' :: ' ' :: encVal ind v) from by
          rw [encObjItems]] at hc
        simp only [List.mem_append, List.mem_cons] at hc
        rcases hc with h | rfl | rfl | h
        · exact escString_ascii h
        · decide
        · decide
        · exact ihV v (by omega) ind c h
      | cons n2 ns =>
        rw [jfuelO] at hj
        rw [show encObjItems ind (k, v) (n2 :: ns) = escString k ++ (':' :: ' ' ::
          (encVal ind v ++ (',' :: '\n' :: (spacesN ind ++ encObjItems ind n2 ns)))) from by
          rw [encObjItems]; simp] at hc
        simp only [List.mem_append, List.mem_cons] at hc
        rcases hc with h | rfl | rfl | h | rfl | rfl | h | h
        · exact escString_ascii h
        · decide
        · decide
        · exact ihV v (by omega) ind c h
        · decide
        · decide
        · exact spacesN_ascii _ h
        · exact ihO n2 ns (by omega) ind c h

/-! ## Pipeline scenario lemmas -/

theorem processFile_noMime {env : Env} (up od p : String) (hg : env.guess_type p = none) :
    processFile env up od p = ([], some attributeErrorNone) := by
  rw [processFile, hg]

theorem processFile_skip {env : Env} (up od p : String) {m : String}
    (hg : env.guess_type p = some m) (hst : str_startswith m ("audio/") = false) :
    processFile env up od p = ([Event.logWarning ("Skipping non-audio file: " ++ p)], none) := by
  rw [processFile, hg]
  simp only []
  rw [if_pos]
  rw [hst]
  simp

theorem processFile_uploadErr {env : Env} (up od p : String) {m : String} {e : PyErr}
    (hg : env.guess_type p = some m) (hst : str_startswith m ("audio/") = true)
    (hu : env.upload_to_gemini p = Except.error e) :
    processFile env up od p =
      ([Event.logInfo ("Uploading: " ++ p), Event.uploadCall p m], some e) := by
  rw [processFile, hg]
  simp only []
  rw [if_neg (fun hn => hn hst), hu]

theorem processFile_waitFail {env : Env} (up od p : String) {m : String} {u : UploadResult}
    (hg : env.guess_type p = some m) (hst : str_startswith m ("audio/") = true)
    (hu : env.upload_to_gemini p = Except.ok u)
    (hrdy : (normalizeUploaded u).all (fun h => h.state == AssetState.ready) = false) :
    processFile env up od p =
      ([Event.logInfo ("Uploading: " ++ p), Event.uploadCall p m,
        Event.waitCall (normalizeUploaded u)], some processingFailedError) := by
  rw [processFile, hg]
  simp only []
  rw [if_neg (fun hn => hn hst), hu]
  simp only []
  rw [wait_for_files_active, if_neg]
  · rfl
  · rw [hrdy]
    simp

theorem processFile_chatErr {env : Env} (up od p : String) {m : String} {u : UploadResult}
    {e : PyErr} (hg : env.guess_type p = some m) (hst : str_startswith m ("audio/") = true)
    (hu : env.upload_to_gemini p = Except.ok u)
    (hrdy : (normalizeUploaded u).all (fun h => h.state == AssetState.ready) = true)
    (hs : env.send_message p = Except.error e) :
    processFile env up od p =
      ([Event.logInfo ("Uploading: " ++ p), Event.uploadCall p m,
        Event.waitCall (normalizeUploaded u),
        Event.chatCall (normalizeUploaded u) up], some e) := by
  rw [processFile, hg]
  simp only []
  rw [if_neg (fun hn => hn hst), hu]
  simp only []
  rw [wait_for_files_active, if_pos hrdy]
  simp only []
  rw [hs]
  rfl

theorem processFile_parseFail {env : Env} (up od p : String) {m : String} {u : UploadResult}
    {t : String} (hg : env.guess_type p = some m) (hst : str_startswith m ("audio/") = true)
    (hu : env.upload_to_gemini p = Except.ok u)
    (hrdy : (normalizeUploaded u).all (fun h => h.state == AssetState.ready) = true)
    (hs : env.send_message p = Except.ok t) (hl : json_loads t = none) :
    processFile env up od p =
      ([Event.logInfo ("Uploading: " ++ p), Event.uploadCall p m,
        Event.waitCall (normalizeUploaded u),
        Event.chatCall (normalizeUploaded u) up,
        Event.openTrunc (derivedJsonPath od p)], some jsonDecodeError) := by
  rw [processFile, hg]
  simp only []
  rw [if_neg (fun hn => hn hst), hu]
  simp only []
  rw [wait_for_files_active, if_pos hrdy]
  simp only []
  rw [hs]
  simp only []
  rw [hl]
  rfl

theorem processFile_success {env : Env} (up od p : String) {m : String} {u : UploadResult}
    {t : String} {v : J} (hg : env.guess_type p = some m)
    (hst : str_startswith m ("audio/") = true) (hu : env.upload_to_gemini p = Except.ok u)
    (hrdy : (normalizeUploaded u).all (fun h => h.state == AssetState.ready) = true)
    (hs : env.send_message p = Except.ok t) (hl : json_loads t = some v) :
    processFile env up od p =
      ([Event.logInfo ("Uploading: " ++ p), Event.uploadCall p m,
        Event.waitCall (normalizeUploaded u),
        Event.chatCall (normalizeUploaded u) up,
        Event.openTrunc (derivedJsonPath od p),
        Event.writeOut (derivedJsonPath od p) (json_dumps_indent4 v),
        Event.logInfo ("Saved transcription to: " ++ derivedJsonPath od p)], none) := by
  rw [processFile, hg]
  simp only []
  rw [if_neg (fun hn => hn hst), hu]
  simp only []
  rw [wait_for_files_active, if_pos hrdy]
  simp only []
  rw [hs]
  simp only []
  rw [hl]
  rfl

theorem runLoop_nil (env : Env) (up od : String) : runLoop env up od [] = ([], none) := rfl

theorem runLoop_cons_ok {env : Env} {up od p : String} (rest : List String)
    (h : (processFile env up od p).2 = none) :
    runLoop env up od (p :: rest) =
      ((processFile env up od p).1 ++ (runLoop env up od rest).1,
        (runLoop env up od rest).2) := by
  rw [runLoop]
  simp only []
  rw [h]

theorem runLoop_cons_exc {env : Env} {up od p : String} {e : PyErr} (rest : List String)
    (h : (processFile env up od p).2 = some e) (hexc : e.isExc = true) :
    runLoop env up od (p :: rest) =
      ((processFile env up od p).1 ++ Event.logError p e :: (runLoop env up od rest).1,
        (runLoop env up od rest).2) := by
  rw [runLoop]
  simp only []
  rw [h]
  simp only []
  rw [if_pos hexc]

theorem runLoop_cons_fatal {env : Env} {up od p : String} {e : PyErr} (rest : List String)
    (h : (processFile env up od p).2 = some e) (hexc : e.isExc = false) :
    runLoop env up od (p :: rest) = ((processFile env up od p).1, some e) := by
  rw [runLoop]
  simp only []
  rw [h]
  simp only []
  rw [if_neg]
  rw [hexc]
  simp

/-! ## Error isolation and trace structure -/

theorem processFile_err_isExc {env : Env} (up od p : String) (henv : envOnlyExc env) :
    ∀ e : PyErr, (processFile env up od p).2 = some e → e.isExc = true := by
  intro e h
  cases hg : env.guess_type p with
  | none =>
    rw [processFile_noMime up od p hg] at h
    simp only [Option.some.injEq] at h
    rw [← h]
    rfl
  | some m =>
    cases hst : str_startswith m ("audio/") with
    | false =>
      rw [processFile_skip up od p hg hst] at h
      simp at h
    | true =>
      cases hu : env.upload_to_gemini p with
      | error e2 =>
        rw [processFile_uploadErr up od p hg hst hu] at h
        simp only [Option.some.injEq] at h
        rw [← h]
        exact henv.1 p e2 hu
      | ok u =>
        cases hrdy : (normalizeUploaded u).all (fun h => h.state == AssetState.ready) with
        | false =>
          rw [processFile_waitFail up od p hg hst hu hrdy] at h
          simp only [Option.some.injEq] at h
          rw [← h]
          rfl
        | true =>
          cases hs : env.send_message p with
          | error e2 =>
            rw [processFile_chatErr up od p hg hst hu hrdy hs] at h
            simp only [Option.some.injEq] at h
            rw [← h]
            exact henv.2 p e2 hs
          | ok t =>
            cases hl : json_loads t with
            | none =>
              rw [processFile_parseFail up od p hg hst hu hrdy hs hl] at h
              simp only [Option.some.injEq] at h
              rw [← h]
              rfl
            | some v =>
              rw [processFile_success up od p hg hst hu hrdy hs hl] at h
              simp at h

theorem runLoop_all_exc {env : Env} (up od : String) : ∀ paths : List String,
    (∀ p ∈ paths, ∀ e, (processFile env up od p).2 = some e → e.isExc = true) →
    runLoop env up od paths = (tracesOf env up od paths, none) := by
  intro paths
  induction paths with
  | nil => intro _; rfl
  | cons p rest ih =>
    intro hall
    have hrest := ih (fun q hq e he => hall q (List.mem_cons_of_mem p hq) e he)
    cases herr : (processFile env up od p).2 with
    | none =>
      rw [runLoop_cons_ok rest herr, hrest]
      rw [show tracesOf env up od (p :: rest) =
        fileTrace env up od p ++ tracesOf env up od rest from by rw [tracesOf]]
      rw [fileTrace, herr]
      simp
    | some e =>
      have hexc := hall p (List.mem_cons_self p rest) e herr
      rw [runLoop_cons_exc rest herr hexc, hrest]
      rw [show tracesOf env up od (p :: rest) =
        fileTrace env up od p ++ tracesOf env up od rest from by rw [tracesOf]]
      rw [fileTrace, herr]
      simp

theorem runLoop_abort {env : Env} (up od : String) : ∀ (pre : List String) (p : String)
    (rest : List String) (e : PyErr),
    (∀ q ∈ pre, ∀ e', (processFile env up od q).2 = some e' → e'.isExc = true) →
    (processFile env up od p).2 = some e → e.isExc = false →
    runLoop env up od (pre ++ p :: rest) =
      (tracesOf env up od pre ++ (processFile env up od p).1, some e) := by
  intro pre
  induction pre with
  | nil =>
    intro p rest e _ herr hexc
    rw [List.nil_append, runLoop_cons_fatal rest herr hexc]
    rfl
  | cons q pre' ih =>
    intro p rest e hall herr hexc
    have hq := hall q (List.mem_cons_self q pre')
    have hrest := ih p rest e (fun r hr e' he' => hall r (List.mem_cons_of_mem q hr) e' he')
      herr hexc
    rw [List.cons_append]
    cases hqerr : (processFile env up od q).2 with
    | none =>
      rw [runLoop_cons_ok _ hqerr, hrest]
      rw [show tracesOf env up od (q :: pre') =
        fileTrace env up od q ++ tracesOf env up od pre' from by rw [tracesOf]]
      rw [fileTrace, hqerr]
      simp
    | some e' =>
      have hexc' := hq e' hqerr
      rw [runLoop_cons_exc _ hqerr hexc', hrest]
      rw [show tracesOf env up od (q :: pre') =
        fileTrace env up od q ++ tracesOf env up od pre' from by rw [tracesOf]]
      rw [fileTrace, hqerr]
      simp

/-! ## Filesystem lemmas -/

theorem fsWrite_fsWrite (fs : FS) (p c1 c2 : String) :
    fsWrite (fsWrite fs p c1) p c2 = fsWrite fs p c2 := by
  induction fs with
  | nil => simp [fsWrite]
  | cons hd tl ih =>
    obtain ⟨q, d⟩ := hd
    by_cases hq : q = p
    · subst hq
      simp [fsWrite]
    · rw [fsWrite, if_neg hq, fsWrite, if_neg hq, fsWrite, if_neg hq, ih]

theorem fsLookup_fsWrite (fs : FS) (p c : String) : fsLookup (fsWrite fs p c) p = some c := by
  induction fs with
  | nil => simp [fsWrite, fsLookup]
  | cons hd tl ih =>
    obtain ⟨q, d⟩ := hd
    by_cases hq : q = p
    · subst hq
      simp [fsWrite, fsLookup]
    · rw [fsWrite, if_neg hq, fsLookup, if_neg hq, ih]

/-! ## Wait-before-chat ordering -/

theorem wbc_of_no_chat {evs : List Event}
    (h : ∀ parts pr, Event.chatCall parts pr ∉ evs) : waitBeforeChat evs := by
  intro parts pr pre post heq
  exact absurd (heq ▸ List.mem_append_right pre (List.mem_cons_self _ post)) (h parts pr)

theorem wbc_block (parts : List AssetHandle) (pr : String) : ∀ (pre0 : List Event)
    (tail : List Event), (∀ p q, Event.chatCall p q ∉ pre0) →
    (∀ p q, Event.chatCall p q ∉ tail) →
    waitBeforeChat (pre0 ++ Event.waitCall parts :: Event.chatCall parts pr :: tail) := by
  intro pre0
  induction pre0 with
  | nil =>
    intro tail _ htail parts' pr' pre post heq
    rw [List.nil_append] at heq
    cases pre with
    | nil => simp at heq
    | cons x pre' =>
      rw [List.cons_append] at heq
      obtain ⟨hx, heq'⟩ := List.cons.inj heq
      cases pre' with
      | nil =>
        simp only [List.nil_append] at heq'
        obtain ⟨hchat, _⟩ := List.cons.inj heq'
        simp only [Event.chatCall.injEq] at hchat
        rw [← hchat.1, ← hx]
        exact List.mem_cons_self _ _
      | cons y pre'' =>
        rw [List.cons_append] at heq'
        obtain ⟨hy, heq''⟩ := List.cons.inj heq'
        exact absurd (heq'' ▸ List.mem_append_right pre'' (List.mem_cons_self _ post))
          (htail parts' pr')
  | cons z pre0' ih =>
    intro tail hpre0 htail parts' pr' pre post heq
    cases pre with
    | nil =>
      rw [List.nil_append] at heq
      rw [List.cons_append] at heq
      obtain ⟨hz, _⟩ := List.cons.inj heq
      exact absurd (hz ▸ List.mem_cons_self z pre0') (hpre0 parts' pr')
    | cons x pre' =>
      rw [List.cons_append, List.cons_append] at heq
      obtain ⟨hx, heq'⟩ := List.cons.inj heq
      have hmem := ih tail (fun p q hq => hpre0 p q (List.mem_cons_of_mem z hq)) htail
        parts' pr' pre' post heq'
      exact List.mem_cons_of_mem x hmem

theorem processFile_waitBeforeChat (env : Env) (up od p : String) :
    waitBeforeChat (processFile env up od p).1 := by
  cases hg : env.guess_type p with
  | none =>
    rw [processFile_noMime up od p hg]
    exact wbc_of_no_chat (by intro parts pr h; simp at h)
  | some m =>
    cases hst : str_startswith m ("audio/") with
    | false =>
      rw [processFile_skip up od p hg hst]
      exact wbc_of_no_chat (by intro parts pr h; simp at h)
    | true =>
      cases hu : env.upload_to_gemini p with
      | error e2 =>
        rw [processFile_uploadErr up od p hg hst hu]
        exact wbc_of_no_chat (by intro parts pr h; simp at h)
      | ok u =>
        cases hrdy : (normalizeUploaded u).all (fun h => h.state == AssetState.ready) with
        | false =>
          rw [processFile_waitFail up od p hg hst hu hrdy]
          exact wbc_of_no_chat (by intro parts pr h; simp at h)
        | true =>
          cases hs : env.send_message p with
          | error e2 =>
            rw [processFile_chatErr up od p hg hst hu hrdy hs]
            exact wbc_block _ up [Event.logInfo ("Uploading: " ++ p), Event.uploadCall p m]
              [] (by intro parts pr h; simp at h) (by intro parts pr h; simp at h)
          | ok t =>
            cases hl : json_loads t with
            | none =>
              rw [processFile_parseFail up od p hg hst hu hrdy hs hl]
              exact wbc_block _ up [Event.logInfo ("Uploading: " ++ p), Event.uploadCall p m]
                [Event.openTrunc (derivedJsonPath od p)] (by intro parts pr h; simp at h)
                (by intro parts pr h; simp at h)
            | some v =>
              rw [processFile_success up od p hg hst hu hrdy hs hl]
              exact wbc_block _ up [Event.logInfo ("Uploading: " ++ p), Event.uploadCall p m]
                [Event.openTrunc (derivedJsonPath od p),
                 Event.writeOut (derivedJsonPath od p) (json_dumps_indent4 v),
                 Event.logInfo ("Saved transcription to: " ++ derivedJsonPath od p)]
                (by intro parts pr h; simp at h) (by intro parts pr h; simp at h)

/-! ## Claim theorems -/

/-- Claim C2 (code bug): for a directory holding a regular file whose content
type cannot be determined, the claim says `get_audio_file_paths` must not
raise and must exclude the file; the code instead evaluates
`None.startswith('audio/')` and raises `AttributeError` (an
`Exception`-derived class), as the spec's §9 itself flags.  The theorem
evaluates the code at the failing input. -/
theorem c2_code_bug_attribute_error :
    get_audio_file_paths gtNone ("AudioData") [⟨"README", true⟩] =
      Except.error attributeErrorNone := rfl

/-- Claim C3, counterexample: on a directory whose single regular file has no
determinable content type, `get_audio_file_paths` does not return the
spec's reference classification (the empty selection); it raises instead. -/
theorem c3_counterexample :
    get_audio_file_paths gtNone ("AudioData") [⟨"README", true⟩] ≠
      Except.ok (specAudioFiles gtNone ("AudioData") [⟨"README", true⟩]) := by
  intro h
  exact Except.noConfusion h

/-- Claim C3 (amended): for every directory in which every regular file has a
determinable content type, `get_audio_file_paths` returns exactly the entries
that are regular files whose guessed content type starts with `audio/` —
in the order of the underlying listing (the reference classification
`specAudioFiles`). -/
theorem c3_amended_exact_audio_filter (gt : String → Option String) (directory : String) :
    ∀ listing : List DirEntry,
    (∀ ent ∈ listing, ent.isFile = true → gt (os_path_join directory ent.ename) ≠ none) →
    get_audio_file_paths gt directory listing =
      Except.ok (specAudioFiles gt directory listing) := by
  intro listing
  induction listing with
  | nil => intro _; rfl
  | cons ent rest ih =>
    intro hall
    have hrest := ih (fun e he hf => hall e (List.mem_cons_of_mem _ he) hf)
    rw [get_audio_file_paths] at hrest ⊢
    rw [scanEntries]
    cases hf : ent.isFile with
    | false =>
      rw [if_neg (by simp)]
      rw [hrest]
      rw [show specAudioFiles gt directory (ent :: rest) =
        specAudioFiles gt directory rest from by
          rw [specAudioFiles, specAudioFiles, List.filter_cons_of_neg (by simp [hf])]]
    | true =>
      rw [if_pos rfl]
      cases hg : gt (os_path_join directory ent.ename) with
      | none => exact absurd hg (hall ent (List.mem_cons_self _ _) hf)
      | some ty =>
        simp only []
        cases hst : str_startswith ty ("audio/") with
        | true =>
          rw [if_pos rfl, hrest]
          rw [show specAudioFiles gt directory (ent :: rest) =
            os_path_join directory ent.ename :: specAudioFiles gt directory rest from by
              rw [specAudioFiles, specAudioFiles, List.filter_cons_of_pos (by
                simp [hf, hg, hst]), List.map_cons]]
          rfl
        | false =>
          rw [if_neg (by simp), hrest]
          rw [show specAudioFiles gt directory (ent :: rest) =
            specAudioFiles gt directory rest from by
              rw [specAudioFiles, specAudioFiles, List.filter_cons_of_neg (by
                simp [hf, hg, hst])]]

/-- Claim C3, witness: the amended theorem applied to a concrete directory
with one audio file, one text file and one subdirectory. -/
theorem c3_witness :
    get_audio_file_paths gtTable ("AudioData") listingC3 =
      Except.ok (specAudioFiles gtTable ("AudioData") listingC3) ∧
    specAudioFiles gtTable ("AudioData") listingC3 = ["AudioData/call1.wav"] :=
  ⟨c3_amended_exact_audio_filter gtTable ("AudioData") listingC3 (by decide), rfl⟩

/-- Claim C8: on the empty input list, `extract_json_from_audio` still
creates the output directory (the `makeDirs` event, modelling
`os.makedirs(..., exist_ok=True)`) and does nothing else: the trace holds no
upload, wait, chat or file event, no error escapes, and the filesystem is
unchanged. -/
theorem c8_empty_input (env : Env) (up od : String) (fs : FS)
    (hmk : env.makedirs_error = none) :
    extract_json_from_audio env [] up od = ([Event.makeDirs od], none) ∧
    finalFS fs [Event.makeDirs od] = fs := by
  constructor
  · rw [extract_json_from_audio, hmk]
    rfl
  · rfl

/-- Claim C8, witness. -/
theorem c8_witness :
    extract_json_from_audio envSuccess [] ("prompt") ("TextOutput") =
      ([Event.makeDirs ("TextOutput")], none) ∧
    finalFS [] [Event.makeDirs ("TextOutput")] = [] :=
  c8_empty_input envSuccess ("prompt") ("TextOutput") [] rfl

/-- Claim C4: when the environment only raises `Exception`-derived errors
(as network and API failures are) and the output directory can be created,
the run never aborts: every file contributes its trace (`tracesOf`), a file
whose processing raised is logged via `Event.logError` with that file's path
(see `fileTrace`), and the loop finishes with no escaping error.  A failure
of the setup-phase `os.makedirs`, by contrast, is fatal before any file is
processed. -/
theorem c4_per_file_errors_isolated (env : Env) (paths : List String) (up od : String) :
    (envOnlyExc env → env.makedirs_error = none →
      extract_json_from_audio env paths up od =
        (Event.makeDirs od :: tracesOf env up od paths, none)) ∧
    (∀ e, env.makedirs_error = some e →
      extract_json_from_audio env paths up od = ([], some e)) := by
  constructor
  · intro henv hmk
    rw [extract_json_from_audio, hmk]
    simp only []
    rw [runLoop_all_exc up od paths (fun p _ e he => processFile_err_isExc up od p henv e he)]
  · intro e hmk
    rw [extract_json_from_audio, hmk]

/-- Claim C4, witness: a run over one file whose upload raises a
`RuntimeError` completes with no escaping error. -/
theorem c4_witness :
    extract_json_from_audio envUploadExc ["AudioData/a.mp3"] ("prompt") ("TextOutput") =
      (Event.makeDirs ("TextOutput") ::
        tracesOf envUploadExc ("prompt") ("TextOutput") ["AudioData/a.mp3"], none) :=
  (c4_per_file_errors_isolated envUploadExc ["AudioData/a.mp3"] ("prompt") ("TextOutput")).1
    ⟨fun p e he => by
        simp only [envUploadExc] at he
        injection he with h
        rw [← h],
      fun p e he => by
        simp only [envUploadExc] at he
        exact Except.noConfusion he⟩
    rfl

/-- Claim C9: the per-file handler is `except Exception`, so an error whose
class does not derive from `Exception` (such as `KeyboardInterrupt` or
`SystemExit`) propagates out of the loop: the files before it are processed
normally, the raising file's events end the trace with no `logError` line,
the remaining files contribute nothing, and the error escapes
`extract_json_from_audio`. -/
theorem c9_non_exception_propagates (env : Env) (up od : String) (pre : List String)
    (p : String) (rest : List String) (e : PyErr)
    (hpre : ∀ q ∈ pre, ∀ e', (processFile env up od q).2 = some e' → e'.isExc = true)
    (herr : (processFile env up od p).2 = some e) (hexc : e.isExc = false)
    (hmk : env.makedirs_error = none) :
    extract_json_from_audio env (pre ++ p :: rest) up od =
      (Event.makeDirs od :: (tracesOf env up od pre ++ (processFile env up od p).1),
        some e) := by
  rw [extract_json_from_audio, hmk]
  simp only []
  rw [runLoop_abort up od pre p rest e hpre herr hexc]

/-- Claim C9, witness: a `KeyboardInterrupt` during the first file's upload
aborts the batch; the second file is never processed. -/
theorem c9_witness :
    extract_json_from_audio envInterrupted ["AudioData/a.mp3", "AudioData/b.mp3"]
        ("prompt") ("TextOutput") =
      (Event.makeDirs ("TextOutput") :: (tracesOf envInterrupted ("prompt") ("TextOutput") [] ++
        (processFile envInterrupted ("prompt") ("TextOutput") ("AudioData/a.mp3")).1),
        some ⟨"KeyboardInterrupt", false⟩) :=
  c9_non_exception_propagates envInterrupted ("prompt") ("TextOutput") [] ("AudioData/a.mp3")
    ["AudioData/b.mp3"] ⟨"KeyboardInterrupt", false⟩
    (fun q hq => absurd hq (List.not_mem_nil q)) rfl rfl rfl

/-- Claim C1, counterexample: with a remote response that is not valid JSON,
an output file IS created at the derived output path — empty, because
`open(json_path, "w")` truncates/creates the file before `json.loads` runs —
contradicting the claim that no output file (not even an empty one) is left. -/
theorem c1_counterexample :
    json_loads ("not json") = none ∧
    fsLookup (finalFS [] (extract_json_from_audio envParseFail ["AudioData/a.mp3"]
      ("prompt") ("TextOutput")).1) ("TextOutput/a.json") = some ("") := ⟨rfl, rfl⟩

/-- Claim C1 (amended): when the response text is malformed JSON, the
structured output is never written and the run continues with the next file,
but an *empty* file is left at the derived output path: the
`except`-handled `json.JSONDecodeError` is raised only after
`open(json_path, "w")` has already created (truncated) the file. -/
theorem c1_amended_empty_file_on_parse_failure (env : Env) (up od p : String)
    (rest : List String) (fs : FS) (m : String) (u : UploadResult) (t : String)
    (hg : env.guess_type p = some m) (hst : str_startswith m ("audio/") = true)
    (hu : env.upload_to_gemini p = Except.ok u)
    (hrdy : (normalizeUploaded u).all (fun h => h.state == AssetState.ready) = true)
    (hs : env.send_message p = Except.ok t) (hl : json_loads t = none)
    (hmk : env.makedirs_error = none) :
    (processFile env up od p).2 = some jsonDecodeError ∧
    finalFS fs (processFile env up od p).1 = fsWrite fs (derivedJsonPath od p) ("") ∧
    extract_json_from_audio env (p :: rest) up od =
      (Event.makeDirs od :: ((processFile env up od p).1 ++
        Event.logError p jsonDecodeError :: (runLoop env up od rest).1),
        (runLoop env up od rest).2) := by
  have hpf := processFile_parseFail up od p hg hst hu hrdy hs hl
  refine ⟨by rw [hpf], ?_, ?_⟩
  · rw [hpf]
    simp [finalFS, applyEvent]
  · rw [extract_json_from_audio, hmk]
    simp only []
    rw [runLoop_cons_exc rest (by rw [hpf]) rfl]

/-- Claim C1, witness: the amended theorem at the concrete parse-failure
environment. -/
theorem c1_witness :
    (processFile envParseFail ("prompt") ("TextOutput") ("AudioData/a.mp3")).2 =
      some jsonDecodeError ∧
    finalFS [] (processFile envParseFail ("prompt") ("TextOutput") ("AudioData/a.mp3")).1 =
      fsWrite [] (derivedJsonPath ("TextOutput") ("AudioData/a.mp3")) ("") ∧
    extract_json_from_audio envParseFail ["AudioData/a.mp3"] ("prompt") ("TextOutput") =
      (Event.makeDirs ("TextOutput") ::
        ((processFile envParseFail ("prompt") ("TextOutput") ("AudioData/a.mp3")).1 ++
          Event.logError ("AudioData/a.mp3") jsonDecodeError ::
            (runLoop envParseFail ("prompt") ("TextOutput") []).1),
        (runLoop envParseFail ("prompt") ("TextOutput") []).2) :=
  c1_amended_empty_file_on_parse_failure envParseFail ("prompt") ("TextOutput")
    ("AudioData/a.mp3") [] [] ("audio/mpeg") (UploadResult.listed [readyHandle])
    ("not json") rfl rfl rfl rfl rfl rfl rfl

/-- Claim C5: within each file's iteration, the chat request carrying the
uploaded asset handles is never issued before the readiness wait over that
same list of handles (`waitBeforeChat` of the iteration's trace); and when
any handle reports the failed state, `wait_for_files_active` raises, so no
chat request is issued, no output file is created (the filesystem is
unchanged), and after the error is logged the loop continues with the
remaining files.  `wait_for_files_active` itself is modelled from the spec,
its source living outside the repository's sources. -/
theorem c5_wait_precedes_chat_and_failed_blocks_output (env : Env) (up od p : String) :
    waitBeforeChat (processFile env up od p).1 ∧
    (∀ (m : String) (u : UploadResult) (rest : List String) (fs : FS),
      env.guess_type p = some m → str_startswith m ("audio/") = true →
      env.upload_to_gemini p = Except.ok u →
      (normalizeUploaded u).all (fun h => h.state == AssetState.ready) = false →
      (processFile env up od p).2 = some processingFailedError ∧
      (∀ parts pr, Event.chatCall parts pr ∉ (processFile env up od p).1) ∧
      finalFS fs (processFile env up od p).1 = fs ∧
      (env.makedirs_error = none →
        extract_json_from_audio env (p :: rest) up od =
          (Event.makeDirs od :: ((processFile env up od p).1 ++
            Event.logError p processingFailedError :: (runLoop env up od rest).1),
            (runLoop env up od rest).2))) := by
  constructor
  · exact processFile_waitBeforeChat env up od p
  · intro m u rest fs hg hst hu hrdy
    have hpf := processFile_waitFail up od p hg hst hu hrdy
    refine ⟨by rw [hpf], ?_, ?_, ?_⟩
    · rw [hpf]
      intro parts pr h
      simp at h
    · rw [hpf]
      rfl
    · intro hmk
      rw [extract_json_from_audio, hmk]
      simp only []
      rw [runLoop_cons_exc rest (by rw [hpf]) rfl]

/-- Claim C5, witness: a failed asset blocks the chat request and the output
file, and the loop continues. -/
theorem c5_witness :
    (processFile envWaitFailed ("prompt") ("TextOutput") ("AudioData/a.mp3")).2 =
      some processingFailedError ∧
    (∀ parts pr, Event.chatCall parts pr ∉
      (processFile envWaitFailed ("prompt") ("TextOutput") ("AudioData/a.mp3")).1) ∧
    finalFS [] (processFile envWaitFailed ("prompt") ("TextOutput") ("AudioData/a.mp3")).1 =
      [] ∧
    (envWaitFailed.makedirs_error = none →
      extract_json_from_audio envWaitFailed ["AudioData/a.mp3"] ("prompt") ("TextOutput") =
        (Event.makeDirs ("TextOutput") ::
          ((processFile envWaitFailed ("prompt") ("TextOutput") ("AudioData/a.mp3")).1 ++
            Event.logError ("AudioData/a.mp3") processingFailedError ::
              (runLoop envWaitFailed ("prompt") ("TextOutput") []).1),
          (runLoop envWaitFailed ("prompt") ("TextOutput") []).2)) :=
  (c5_wait_precedes_chat_and_failed_blocks_output envWaitFailed ("prompt") ("TextOutput")
    ("AudioData/a.mp3")).2 ("audio/mpeg") (UploadResult.listed [failedHandle]) [] []
    rfl rfl rfl rfl

/-- Claim C6: a successfully processed file raises nothing; the output is
written at exactly the path obtained by joining the output directory with
the input's base name, extension replaced by `.json` (so `foo.bar` yields
`foo.json`); the content is the `indent=4` serialization of the parsed
value, overwriting whatever the path held before (`fsWrite`); and decoding
the written text yields the very value that was parsed from the response:
`json_loads (json_dumps_indent4 v) = some v`. -/
theorem c6_output_path_and_roundtrip (env : Env) (up od p : String) (fs : FS) (m : String)
    (u : UploadResult) (t : String) (v : J)
    (hg : env.guess_type p = some m) (hst : str_startswith m ("audio/") = true)
    (hu : env.upload_to_gemini p = Except.ok u)
    (hrdy : (normalizeUploaded u).all (fun h => h.state == AssetState.ready) = true)
    (hs : env.send_message p = Except.ok t) (hl : json_loads t = some v) :
    (processFile env up od p).2 = none ∧
    derivedJsonPath od p =
      os_path_join od (os_path_splitext_stem (os_path_basename p) ++ ".json") ∧
    os_path_splitext_stem ("foo.bar") = "foo" ∧
    finalFS fs (processFile env up od p).1 =
      fsWrite fs (derivedJsonPath od p) (json_dumps_indent4 v) ∧
    fsLookup (finalFS fs (processFile env up od p).1) (derivedJsonPath od p) =
      some (json_dumps_indent4 v) ∧
    json_loads (json_dumps_indent4 v) = some v := by
  have hpf := processFile_success up od p hg hst hu hrdy hs hl
  have hffs : finalFS fs (processFile env up od p).1 =
      fsWrite fs (derivedJsonPath od p) (json_dumps_indent4 v) := by
    rw [hpf]
    simp [finalFS, applyEvent, fsWrite_fsWrite]
  refine ⟨by rw [hpf], rfl, rfl, hffs, ?_, json_loads_dumps v⟩
  rw [hffs]
  exact fsLookup_fsWrite fs _ _

/-- Claim C6, witness: the concrete success environment, whose response text
`7` parses to the number 7. -/
theorem c6_witness :
    (processFile envSuccess ("prompt") ("TextOutput") ("AudioData/a.mp3")).2 = none ∧
    derivedJsonPath ("TextOutput") ("AudioData/a.mp3") =
      os_path_join ("TextOutput")
        (os_path_splitext_stem (os_path_basename ("AudioData/a.mp3")) ++ ".json") ∧
    os_path_splitext_stem ("foo.bar") = "foo" ∧
    finalFS [] (processFile envSuccess ("prompt") ("TextOutput") ("AudioData/a.mp3")).1 =
      fsWrite [] (derivedJsonPath ("TextOutput") ("AudioData/a.mp3"))
        (json_dumps_indent4 (J.num 7)) ∧
    fsLookup (finalFS [] (processFile envSuccess ("prompt") ("TextOutput")
        ("AudioData/a.mp3")).1) (derivedJsonPath ("TextOutput") ("AudioData/a.mp3")) =
      some (json_dumps_indent4 (J.num 7)) ∧
    json_loads (json_dumps_indent4 (J.num 7)) = some (J.num 7) :=
  c6_output_path_and_roundtrip envSuccess ("prompt") ("TextOutput") ("AudioData/a.mp3") []
    ("audio/mpeg") (UploadResult.single readyHandle) ("7") (J.num 7)
    rfl rfl rfl rfl rfl rfl

/-- Claim C7: the `isinstance(uploaded_parts, list)` normalization wraps a
single returned asset handle into a one-element list and keeps a returned
list as is (`normalizeUploaded`); the readiness wait is invoked on exactly
the normalized sequence, and any chat request of the iteration carries
exactly that normalized sequence. -/
theorem c7_upload_normalization (h0 : AssetHandle) (hs0 : List AssetHandle) (env : Env)
    (up od p : String) (m : String) (u : UploadResult)
    (hg : env.guess_type p = some m) (hst : str_startswith m ("audio/") = true)
    (hu : env.upload_to_gemini p = Except.ok u) :
    normalizeUploaded (UploadResult.single h0) = [h0] ∧
    normalizeUploaded (UploadResult.listed hs0) = hs0 ∧
    Event.waitCall (normalizeUploaded u) ∈ (processFile env up od p).1 ∧
    (∀ parts pr, Event.chatCall parts pr ∈ (processFile env up od p).1 →
      parts = normalizeUploaded u) := by
  have key : Event.waitCall (normalizeUploaded u) ∈ (processFile env up od p).1 ∧
      (∀ parts pr, Event.chatCall parts pr ∈ (processFile env up od p).1 →
        parts = normalizeUploaded u) := by
    cases hrdy : (normalizeUploaded u).all (fun h => h.state == AssetState.ready) with
    | false =>
      rw [processFile_waitFail up od p hg hst hu hrdy]
      constructor
      · simp
      · intro parts pr hmem
        simp at hmem
    | true =>
      cases hsend : env.send_message p with
      | error e =>
        rw [processFile_chatErr up od p hg hst hu hrdy hsend]
        constructor
        · simp
        · intro parts pr hmem
          simp only [List.mem_cons, List.not_mem_nil, or_false] at hmem
          rcases hmem with h | h | h | h <;> first
            | (simp only [Event.chatCall.injEq] at h; exact h.1)
            | (simp at h)
      | ok t =>
        cases hl : json_loads t with
        | none =>
          rw [processFile_parseFail up od p hg hst hu hrdy hsend hl]
          constructor
          · simp
          · intro parts pr hmem
            simp only [List.mem_cons, List.not_mem_nil, or_false] at hmem
            rcases hmem with h | h | h | h | h <;> first
              | (simp only [Event.chatCall.injEq] at h; exact h.1)
              | (simp at h)
        | some v =>
          rw [processFile_success up od p hg hst hu hrdy hsend hl]
          constructor
          · simp
          · intro parts pr hmem
            simp only [List.mem_cons, List.not_mem_nil, or_false] at hmem
            rcases hmem with h | h | h | h | h | h | h <;> first
              | (simp only [Event.chatCall.injEq] at h; exact h.1)
              | (simp at h)
  exact ⟨rfl, rfl, key.1, key.2⟩

/-- Claim C7, witness: both upload result shapes normalize as claimed, and
the wait and chat of the concrete successful run carry the normalized
sequence. -/
theorem c7_witness :
    normalizeUploaded (UploadResult.single readyHandle) = [readyHandle] ∧
    normalizeUploaded (UploadResult.listed [readyHandle, failedHandle]) =
      [readyHandle, failedHandle] ∧
    Event.waitCall (normalizeUploaded (UploadResult.single readyHandle)) ∈
      (processFile envSuccess ("prompt") ("TextOutput") ("AudioData/a.mp3")).1 ∧
    (∀ parts pr, Event.chatCall parts pr ∈
        (processFile envSuccess ("prompt") ("TextOutput") ("AudioData/a.mp3")).1 →
      parts = normalizeUploaded (UploadResult.single readyHandle)) :=
  c7_upload_normalization readyHandle [readyHandle, failedHandle] envSuccess
    ("prompt") ("TextOutput") ("AudioData/a.mp3") ("audio/mpeg")
    (UploadResult.single readyHandle) rfl rfl rfl

/-- Claim C10: the text `json.dump(v, f, indent=4)` writes consists only of
ASCII characters, because `ensure_ascii` defaults to `True`: every character
of the serialization has a code point at most 127, and a non-ASCII character
in the Basic Multilingual Plane is rendered as a six-character `\uXXXX`
escape (characters beyond it become a pair of such escapes, per `escChar`). -/
theorem c10_ascii_output (v : J) :
    (∀ c ∈ (json_dumps_indent4 v).data, c.toNat ≤ 127) ∧
    (∀ c : Char, 126 < c.toNat → c.toNat < 65536 →
      escChar c = '\\' :: 'u' :: hex4 c.toNat) := by
  constructor
  · intro c hc
    have hc' : c ∈ encVal 0 v := hc
    exact (encVal_ascii_master (jfuel v)).1 v (Nat.le_refl _) 0 c hc'
  · intro c h1 h2
    have hne : ∀ d : Char, d.toNat ≤ 126 → ¬ c = d := fun d hd heq => by
      rw [heq] at h1
      omega
    rw [escChar, if_neg (hne '"' (by decide)), if_neg (hne '\\' (by decide)),
      if_neg (hne '\n' (by decide)), if_neg (hne '\r' (by decide)),
      if_neg (hne '\t' (by decide)), if_neg (hne '\x08' (by decide)),
      if_neg (hne '\x0c' (by decide)), if_neg (by omega), if_pos h2]

/-- Claim C10, witness: a character of the serialization of `null` is ASCII,
and the non-ASCII `é` (U+00E9) is escaped to a six-character `u`-escape. -/
theorem c10_witness :
    ('n' : Char).toNat ≤ 127 ∧
    escChar 'é' = '\\' :: 'u' :: hex4 ('é'.toNat) :=
  ⟨(c10_ascii_output J.null).1 'n' (by
      rw [show (json_dumps_indent4 J.null).data = encVal 0 J.null from rfl,
        show encVal 0 J.null = ['n', 'u', 'l', 'l'] from by rw [encVal]]
      exact List.mem_cons_self _ _),
    (c10_ascii_output J.null).2 'é' (by decide) (by decide)⟩
